import Mathlib

/-!  Verification model of the swh CVS loader: the rlog parser and changeset
clusterer (src/swh/loader/cvs/rlog.py), the CVS wire client
(src/swh/loader/cvs/cvsclient.py) and the loader driver
(src/swh/loader/cvs/loader.py).

Each definition embeds the Python function named in its doc comment.  Byte
strings are modelled as lists of byte values (`Bytes`); all byte strings
involved in the claims are ASCII, so one byte corresponds to one character
of the string literals used below.

The vendored cvs2gitdump module (`swh/loader/cvs/cvs2gitdump/cvs2gitdump.py`,
imported by rlog.py and loader.py) is not present under src/; the definitions
taken from it (`ChangeSetKey`, `file_path`, the changeset ordering) are
modelled from the spec and carry a doc comment starting with
"Modelled from the spec:".  -/

/-- Byte strings: lists of byte values. -/
abbrev Bytes : Type := List Nat

/-- Turns an ASCII string literal into its byte list. -/
def bs (s : String) : Bytes := s.toList.map Char.toNat

deriving instance DecidableEq for Except

/- ### C9: two-digit year handling of the rlog date parser -/

/-- Embeds the year-adjustment step of `_parse_log_entry`
(src/swh/loader/cvs/rlog.py lines 384-392):
`EPOCH = 1970; if tm[0] < EPOCH: tm = list(tm);`
`if (tm[0] - 1900) < 70: tm[0] = tm[0] + 100;`
`if tm[0] < EPOCH: raise ValueError("invalid year")`.
The argument is the year field of the parsed time tuple; the result is the
adjusted year, or the ValueError. -/
def fixYear (y : Int) : Except String Int :=
  if y < 1970 then
    let y2 := if y - 1900 < 70 then y + 100 else y
    if y2 < 1970 then .error "invalid year" else .ok y2
  else .ok y

/- ### C7: the checkout request always carries "Argument -kb" -/

/-- Embeds the request sequence written by `CVSClient.checkout`
(src/swh/loader/cvs/cvsclient.py lines 275-280):
`"Directory %s\n%s\nGlobal_option -q\nArgument -r%s\nArgument -kb\n`
`Argument --\nArgument %s\nco \n" % (module, module, rev, path)`.
The checkout method of the source has no expand_keywords parameter; the
request is the same for every call. -/
def checkoutRequest (module rev path : String) : String :=
  "Directory " ++ module ++ "\n" ++ module ++ "\n" ++
  "Global_option -q\n" ++
  "Argument -r" ++ rev ++ "\n" ++
  "Argument -kb\n" ++
  "Argument --\n" ++
  "Argument " ++ path ++ "\n" ++
  "co \n"

/-- Refinement comparison for C7, following the spec text word for word:
"constructs a Directory, Argument -r rev, Argument -kb (when expand_keywords
is false), Argument --, Argument path, co request sequence".  This definition
follows the spec, not the source; it exists only to be compared with
`checkoutRequest`. -/
def checkoutRequestSpec (module rev path : String) (expand_keywords : Bool) : String :=
  "Directory " ++ module ++ "\n" ++ module ++ "\n" ++
  "Global_option -q\n" ++
  "Argument -r" ++ rev ++ "\n" ++
  (if expand_keywords then "" else "Argument -kb\n") ++
  "Argument --\n" ++
  "Argument " ++ path ++ "\n" ++
  "co \n"

/- ### Errors raised by the modelled client -/

/-- Error outcomes of the modelled CVS client and rlog parser.  `serverError`
and `badResponse` are the CVSProtocolError raises carrying the offending
line; `protocolError` covers the remaining CVSProtocolError raises;
`typeError` and `nameError` and `valueError` model the corresponding Python
exceptions; `blocked` marks a point where `conn_read_line` would wait forever
for more data; `fuel` marks exhausted recursion fuel (never reached for the
inputs considered). -/
inductive CvsErr where
  | serverError (line : Bytes)
  | badResponse (line : Bytes)
  | protocolError (tag : String)
  | typeError
  | nameError
  | valueError
  | keyError
  | blocked
  | fuel
deriving DecidableEq, Repr

/- ### C10: the rlog response parser and the misspelled expect_error flag -/

/-- State of the `_parse_rlog_response` loop
(src/swh/loader/cvs/cvsclient.py lines 219-243).  The source initialises
`expect_error = False` and, in the branch for lines starting with
"error  ", executes `epxect_error = True` (line 238), which assigns a
misspelled local name instead of the flag that the loop reads.  Both names
are modelled: `expect_error` is the flag read at the top of the loop,
`epxect_error` the misspelled one, assigned but never read. -/
structure RlogRespState where
  expect_error : Bool
  epxect_error : Bool
  out : Bytes
deriving DecidableEq, Repr

/-- Embeds the loop body of `_parse_rlog_response`
(src/swh/loader/cvs/cvsclient.py lines 222-241), iterating over the lines of
the server response already written to the temporary file: M/MT payloads are
appended to the output, `ok` stops, a line starting with "error  " assigns
the misspelled `epxect_error` and continues, anything else raises. -/
def rlogRespLoop : List Bytes → RlogRespState → Except CvsErr Bytes
  | [], st => .ok st.out
  | line :: rest, st =>
    if st.expect_error then .error (.serverError line)
    else if line = bs ("ok\n") then .ok st.out
    else if line = bs ("M \n") then rlogRespLoop rest st
    else if line.take 2 = bs ("M ") then
      rlogRespLoop rest { st with out := st.out ++ line.drop 2 }
    else if line.take 8 = bs ("MT text ") then
      rlogRespLoop rest { st with out := st.out ++ (line.drop 8).dropLast }
    else if line.take 8 = bs ("MT date ") then
      rlogRespLoop rest { st with out := st.out ++ (line.drop 8).dropLast }
    else if line.take 10 = bs ("MT newline") then
      rlogRespLoop rest { st with out := st.out ++ line.drop 10 }
    else if line.take 7 = bs ("error  ") then
      rlogRespLoop rest { st with epxect_error := true }
    else .error (.badResponse line)

/-- Embeds `CVSClient._parse_rlog_response` (src/swh/loader/cvs/cvsclient.py
lines 219-243) applied to the list of lines of the response file. -/
def parseRlogResponse (lines : List Bytes) : Except CvsErr Bytes :=
  rlogRespLoop lines ⟨false, false, []⟩

/- ### Loader visit model (C2, C3) -/

/-- One changeset worth of data produced by the revision generator
(`process_cvs_changesets` / `process_cvs_rlog_changesets`,
src/swh/loader/cvs/loader.py lines 231-271): the numbers of content,
skipped-content and directory objects of the changeset, and the identity of
the swh revision (commit) computed from the work tree.  Object identities
are abstracted to numbers. -/
structure ChangesetData where
  contents : Nat
  skipped : Nat
  directories : Nat
  revId : Nat
deriving DecidableEq, Repr

/-- Events handed to the storage (the sink of the spec). -/
inductive SinkEvent where
  | skippedContentAdd (n : Nat)
  | contentAdd (n : Nat)
  | directoryAdd (n : Nat)
  | revisionAdd (ids : List Nat)
  | snapshotAdd (branch : Bytes) (target : Nat)
deriving DecidableEq, Repr

/-- Loader state during a visit (the fields of `CvsLoader` used by
`fetch_data` and `store_data`, src/swh/loader/cvs/loader.py lines 98-104 and
429-507).  The revision generator is modelled as the list of outcomes of the
successive `next()` calls: `.ok data` for a yielded changeset, `.error e`
for an exception raised while producing it. -/
structure LoaderState where
  pendingContents : Nat
  pendingSkipped : Nat
  pendingDirectories : Nat
  pendingRevisions : List Nat
  lastRevision : Option Nat
  gen : List (Except String ChangesetData)
deriving DecidableEq, Repr

/-- Embeds `CvsLoader.fetch_data` (src/swh/loader/cvs/loader.py lines
429-440): `next()` on the generator; StopIteration returns False; any other
exception is logged and False is returned ("# Stopping iteration"); on
success the pending objects are stored and True is returned.  The generator
sets `_last_revision` (via `compute_swh_revision`, lines 111-134) before
yielding, hence `lastRevision` is updated on success. -/
def fetchData (st : LoaderState) : Bool × LoaderState :=
  match st.gen with
  | [] => (false, st)
  | .error _ :: rest => (false, { st with gen := rest })
  | .ok d :: rest =>
      (true, { st with
                 gen := rest
                 pendingContents := d.contents
                 pendingSkipped := d.skipped
                 pendingDirectories := d.directories
                 pendingRevisions := [d.revId]
                 lastRevision := some d.revId })

/-- Embeds `CvsLoader.store_data` together with
`generate_and_load_snapshot` (src/swh/loader/cvs/loader.py lines 473-507):
every call adds the pending skipped contents, contents, directories and
revisions, then always builds a snapshot naming branch HEAD with target
`self._last_revision.id` and adds it, then resets the pending lists.  When
`_last_revision` is None, `revision.id` raises (AttributeError). -/
def storeData (st : LoaderState) : Except String (List SinkEvent × LoaderState) :=
  match st.lastRevision with
  | none => .error "AttributeError"
  | some r =>
      .ok ([ .skippedContentAdd st.pendingSkipped,
             .contentAdd st.pendingContents,
             .directoryAdd st.pendingDirectories,
             .revisionAdd st.pendingRevisions,
             .snapshotAdd (bs ("HEAD")) r ],
           { st with
               pendingContents := 0
               pendingSkipped := 0
               pendingDirectories := 0
               pendingRevisions := [] })

/-- Modelled from the spec: the visit driver of the external base loader
(spec section 5, "one producer of changesets feeding one consumer"): it
repeatedly calls `fetch_data` and then `store_data`, and stops after the
`store_data` that follows the first `fetch_data` returning False.  The fuel
argument bounds the number of iterations; `runVisit` supplies enough. -/
def visitLoop : Nat → LoaderState → Except String (List SinkEvent)
  | 0, _ => .error "fuel"
  | n + 1, st =>
    let r := fetchData st
    match storeData r.2 with
    | .error e => .error e
    | .ok (evs, st2) =>
        if r.1 then
          match visitLoop n st2 with
          | .error e => .error e
          | .ok evs2 => .ok (evs ++ evs2)
        else .ok evs

/-- Runs a whole visit over the given generator outcomes and returns the
sequence of events handed to the sink (or the exception ending the visit). -/
def runVisit (gen : List (Except String ChangesetData)) : Except String (List SinkEvent) :=
  visitLoop (gen.length + 1)
    { pendingContents := 0, pendingSkipped := 0, pendingDirectories := 0,
      pendingRevisions := [], lastRevision := none, gen := gen }

/-- Number of snapshots handed to the sink during a visit. -/
def snapshotCount (r : Except String (List SinkEvent)) : Nat :=
  match r with
  | .error _ => 0
  | .ok evs => evs.countP fun e => match e with
      | .snapshotAdd _ _ => true
      | _ => false

/-- The targets of the snapshots handed to the sink, in order. -/
def snapshotTargets (r : Except String (List SinkEvent)) : List Nat :=
  match r with
  | .error _ => []
  | .ok evs => evs.filterMap fun e => match e with
      | .snapshotAdd _ t => some t
      | _ => none

/- ### Changeset clusterer (C4, C5, C8) -/

/-- Modelled from the spec: a file revision entry as stored inside a
changeset by `ChangeSetKey.put_file(path, rev, state, markseq)` of the
vendored cvs2gitdump module (absent from src/). -/
structure FileRev where
  path : Bytes
  revnum : Bytes
  state : Bytes
  markseq : Nat
deriving DecidableEq, Repr

/-- Modelled from the spec: `ChangeSetKey` of the vendored cvs2gitdump
module (absent from src/), spec section 3: "branch label, author bytes, log
message bytes, commit-id (or null), and a min_time/max_time pair", plus the
ordered list of file revisions of the changeset.  The fuzz window is kept
outside the structure because every key of one conversion shares the same
`fuzzsec`. -/
structure CSKey where
  branch : Bytes
  author : Bytes
  log : Bytes
  commitid : Option Bytes
  min_time : Int
  max_time : Int
  revs : List FileRev
deriving DecidableEq, Repr

/-- Modelled from the spec: equality of the discrete fields of two
changeset keys (branch, author, log, commit-id). -/
def csSameFields (a b : CSKey) : Bool :=
  decide (a.branch = b.branch) && decide (a.author = b.author) &&
  decide (a.log = b.log) && decide (a.commitid = b.commitid)

/-- Modelled from the spec: changeset-key equality, spec section 3:
"Equality holds iff branch, author, log, commit-id all match AND the two
time intervals are within fuzz_sec of each other". -/
def csEq (fuzz : Int) (a b : CSKey) : Bool :=
  csSameFields a b && decide (b.min_time - a.max_time ≤ fuzz) &&
  decide (a.min_time - b.max_time ≤ fuzz)

/-- Modelled from the spec: `c.merge(a)`, spec section 3: "the merged key
covers [min(min1,min2), max(max1,max2)]"; the merged file-revision list is
the concatenation (the survivor extends its list with the newcomer's). -/
def csMerge (c a : CSKey) : CSKey :=
  { c with
      min_time := min c.min_time a.min_time
      max_time := max c.max_time a.max_time
      revs := c.revs ++ a.revs }

/-- The dict lookup `self.changesets[a]` together with `del`: the first
stored key equal (in the `csEq` sense) to `a`, and the remaining keys. -/
def extractEq (fuzz : Int) (a : CSKey) : List CSKey → Option (CSKey × List CSKey)
  | [] => none
  | c :: rest =>
    if csEq fuzz c a then some (c, rest)
    else
      match extractEq fuzz a rest with
      | some (c2, rest2) => some (c2, c :: rest2)
      | none => none

/-- Embeds the merge loop of `_process_rlog_entry`
(src/swh/loader/cvs/rlog.py lines 136-141):
`while a in self.changesets: c = self.changesets[a];`
`del self.changesets[a]; c.merge(a); a = c` followed by
`self.changesets[a] = a`.  The fuel argument equals the number of stored
keys, which bounds the number of merge iterations (each iteration removes
one stored key). -/
def cascadeAux (fuzz : Int) : Nat → List CSKey → CSKey → List CSKey
  | 0, s, a => a :: s
  | n + 1, s, a =>
    match extractEq fuzz a s with
    | some (c, rest) => cascadeAux fuzz n rest (csMerge c a)
    | none => a :: s

/-- The merge loop of `_process_rlog_entry` run to completion. -/
def cascadeMerge (fuzz : Int) (s : List CSKey) (a : CSKey) : List CSKey :=
  cascadeAux fuzz s.length s a

/-- One file revision fed to the clusterer, with the fields used by
`_process_rlog_entry` (src/swh/loader/cvs/rlog.py lines 129-135) to build
its `ChangeSetKey`: branch label, author, timestamp, log message,
commit-id, and the file data passed to `put_file`. -/
structure ClusterRev where
  branch : Bytes
  author : Bytes
  time : Int
  log : Bytes
  commitid : Option Bytes
  path : Bytes
  revnum : Bytes
  state : Bytes
deriving DecidableEq, Repr

/-- The fresh key built for one file revision
(src/swh/loader/cvs/rlog.py lines 133-135):
`a = ChangeSetKey(branches[b], author, v[1], logmsgs[k], v[6], fuzzsec);`
`a.put_file(path, k, v[3], 0)`: min_time = max_time = the revision time and
a single file revision with markseq 0. -/
def newCSKey (x : ClusterRev) : CSKey :=
  ⟨x.branch, x.author, x.log, x.commitid, x.time, x.time,
   [⟨x.path, x.revnum, x.state, 0⟩]⟩

/-- Feeding one file revision to the clusterer
(src/swh/loader/cvs/rlog.py lines 133-141). -/
def clusterStep (fuzz : Int) (s : List CSKey) (x : ClusterRev) : List CSKey :=
  cascadeMerge fuzz s (newCSKey x)

/-- Feeding a sequence of file revisions to the clusterer, starting from an
empty changeset table. -/
def clusterAll (fuzz : Int) (l : List ClusterRev) : List CSKey :=
  l.foldl (clusterStep fuzz) []

/-- A changeset in canonical form: its key fields and interval, and its file
revisions taken as a multiset. -/
structure CanonCS where
  branch : Bytes
  author : Bytes
  log : Bytes
  commitid : Option Bytes
  min_time : Int
  max_time : Int
  revs : Multiset FileRev
deriving DecidableEq

/-- Canonical form of a stored changeset key. -/
def canonCS (c : CSKey) : CanonCS :=
  ⟨c.branch, c.author, c.log, c.commitid, c.min_time, c.max_time, (c.revs : Multiset FileRev)⟩

/-- Canonical form of the clusterer state: the multiset of the canonical
forms of its changesets. -/
def canonState (s : List CSKey) : Multiset CanonCS :=
  ((s.map canonCS : List CanonCS) : Multiset CanonCS)

/- ### Specification-side partition invariant for the clusterer (C4) -/

/-- The file-revision record that `put_file` stores for one fed revision. -/
def frOf (x : ClusterRev) : FileRev := ⟨x.path, x.revnum, x.state, 0⟩

/-- A group of file revisions has no cut: wherever a time threshold splits
it, some member at or below the threshold and some member above it are
within the fuzz window of each other. -/
def NoCut (fuzz : Int) (g : List ClusterRev) : Prop :=
  ∀ s : Int, (∃ x ∈ g, x.time ≤ s) → (∃ y ∈ g, s < y.time) →
    ∃ x ∈ g, ∃ y ∈ g, x.time ≤ s ∧ s < y.time ∧ y.time - x.time ≤ fuzz

/-- A stored changeset key faithfully describes a group of fed file
revisions: the discrete fields agree, the interval ends are realised
member times bounding the group, the stored file revisions are exactly the
group's, and the group has no cut. -/
structure Matches (fuzz : Int) (c : CSKey) (g : List ClusterRev) : Prop where
  nonempty : g ≠ []
  branch : ∀ x ∈ g, x.branch = c.branch
  author : ∀ x ∈ g, x.author = c.author
  log : ∀ x ∈ g, x.log = c.log
  commitid : ∀ x ∈ g, x.commitid = c.commitid
  min_mem : ∃ x ∈ g, x.time = c.min_time
  max_mem : ∃ x ∈ g, x.time = c.max_time
  min_le : ∀ x ∈ g, c.min_time ≤ x.time
  le_max : ∀ x ∈ g, x.time ≤ c.max_time
  revs_eq : (c.revs : Multiset FileRev) = ((g.map frOf : List FileRev) : Multiset FileRev)
  nocut : NoCut fuzz g

/-- Two stored keys are separated: the merge test fails on them. -/
def SepK (fuzz : Int) (c d : CSKey) : Prop := csEq fuzz c d = false

/-- The clusterer state is a separated, faithfully-described partition of
the multiset of fed file revisions. -/
def RepM (fuzz : Int) (m : Multiset ClusterRev) (s : List CSKey) : Prop :=
  ∃ G : List (List ClusterRev),
    List.Forall₂ (Matches fuzz) s G ∧
    m = ((G.flatten : List ClusterRev) : Multiset ClusterRev) ∧
    s.Pairwise (SepK fuzz)

/- ### Byte-string utilities for the rlog parser -/

/-- Python `bytes.split(b".")`: split on every dot (byte 46); always returns
at least one (possibly empty) component. -/
def splitDots (b : Bytes) : List Bytes :=
  match b with
  | [] => [[]]
  | c :: rest =>
    let r := splitDots rest
    if c = 46 then [] :: r
    else
      match r with
      | [] => [[c]]
      | h :: t => (c :: h) :: t

/-- Python `bytes.split(sep)` for a one-byte separator. -/
def splitOnByte (sep : Nat) (b : Bytes) : List Bytes :=
  match b with
  | [] => [[]]
  | c :: rest =>
    let r := splitOnByte sep rest
    if c = sep then [] :: r
    else
      match r with
      | [] => [[c]]
      | h :: t => (c :: h) :: t

/-- `sep.join(components)` for a one-byte separator. -/
def joinSep (sep : Nat) : List Bytes → Bytes
  | [] => []
  | [x] => x
  | x :: rest => x ++ sep :: joinSep sep rest

/-- `b".".join(components)`. -/
def joinDots (l : List Bytes) : Bytes := joinSep 46 l

/-- Python byte-string whitespace (the regex class `\s`). -/
def isSpaceB (c : Nat) : Bool :=
  c = 32 || c = 9 || c = 10 || c = 13 || c = 11 || c = 12

/-- ASCII decimal digit. -/
def isDigitB (c : Nat) : Bool := 48 ≤ c && c ≤ 57

/-- `bytes.strip()`: remove leading and trailing whitespace. -/
def stripB (b : Bytes) : Bytes :=
  ((b.dropWhile isSpaceB).reverse.dropWhile isSpaceB).reverse

/-- Decimal value of an all-digit byte string. -/
def digitsToNat (b : Bytes) : Nat := b.foldl (fun acc c => acc * 10 + (c - 48)) 0

/-- Parse a non-empty all-digit byte string. -/
def parseNatB (b : Bytes) : Option Nat :=
  if b ≠ [] ∧ b.all isDigitB then some (digitsToNat b) else none

/-- Association-list read, modelling a Python dict lookup
(`None` when the key is absent, where the source would raise KeyError). -/
def aget {α : Type} (m : List (Bytes × α)) (k : Bytes) : Option α :=
  (m.find? (fun p => p.1 = k)).map (·.2)

/-- Association-list write, modelling a Python dict item assignment: an
existing key keeps its position, a new key is appended. -/
def aset {α : Type} (m : List (Bytes × α)) (k : Bytes) (v : α) : List (Bytes × α) :=
  if (m.find? (fun p => p.1 = k)).isSome then
    m.map (fun p => if p.1 = k then (k, v) else p)
  else m ++ [(k, v)]

/-- `LOG_END_MARKER = b"=" * 77 + b"\n"` (src/swh/loader/cvs/rlog.py
line 183). -/
def logEndMarker : Bytes := List.replicate 77 61 ++ [10]

/-- `ENTRY_END_MARKER = b"-" * 28 + b"\n"` (src/swh/loader/cvs/rlog.py
line 184). -/
def entryEndMarker : Bytes := List.replicate 28 45 ++ [10]

/-- The `_EOF_FILE` / `_EOF_LOG` / `_EOF_ERROR` markers of the rlog parser
(src/swh/loader/cvs/rlog.py lines 186-188); a Python `None` eof is the
`Option.none` around this type. -/
inductive EofFlag where
  | file
  | log
  | error
deriving DecidableEq, Repr

/- ### Embeddings of the rlog error-line regexes -/

/-- Strip every leading repetition of `pat` (the regex `(?:pat)*` at the
start of a line). -/
def dropRepeatedPre (pat : Bytes) (b : Bytes) : Bytes :=
  if h : pat ≠ [] ∧ pat.isPrefixOf b then
    dropRepeatedPre pat (b.drop pat.length)
  else b
termination_by b.length
decreasing_by
  have h1 : 0 < pat.length := List.length_pos.mpr h.1
  have h2 : pat.length ≤ b.length :=
    (List.isPrefixOf_iff_prefix.mp h.2).length_le
  simp only [List.length_drop]
  omega

/-- Greedy match of `(.*,v)` followed by a tail accepted by `tail`: the
largest split position whose prefix ends in ",v" and whose remainder is
accepted; returns the capture and the tail result.  Used to embed the
greedy `(.*,v)` groups of `_re_log_error` and `_re_cvsnt_error`. -/
def greedyVComma (r : Bytes) (tail : Bytes → Option Bytes) : Option (Bytes × Bytes) :=
  let rec go : List Nat → Option (Bytes × Bytes)
    | [] => none
    | i :: rest =>
      if (bs (",v")).isSuffixOf (r.take i) then
        match tail (r.drop i) with
        | some m => some (r.take i, m)
        | none => go rest
      else go rest
  go (List.range (r.length + 1)).reverse

/-- The tail `(?:\:\d+)?\: (.*)$` of `_re_log_error`: an optional
colon-digits group, then ": ", then the message. -/
def logErrTail (t : Bytes) : Option Bytes :=
  if t.take 2 = bs (": ") then some (t.drop 2)
  else if t.take 1 = bs (":") then
    let ds := (t.drop 1).takeWhile isDigitB
    let t2 := (t.drop 1).drop ds.length
    if ds ≠ [] ∧ t2.take 2 = bs (": ") then some (t2.drop 2) else none
  else none

/-- Embeds `_re_log_error` (src/swh/loader/cvs/rlog.py line 204):
`^(?:rlog\: )*(.*,v)(?:\:\d+)?\: (.*)$`.  Returns the captured filename and
message.  The trailing newline is removed first (the `$` anchor). -/
def matchLogError (line : Bytes) : Option (Bytes × Bytes) :=
  let core := if line.getLast? = some 10 then line.dropLast else line
  let r := dropRepeatedPre (bs ("rlog: ")) core
  greedyVComma r logErrTail

/-- The `": "` tail used by two alternatives of `_re_cvsnt_error`. -/
def colonSpaceTail (t : Bytes) : Option Bytes :=
  if t.take 2 = bs (": ") then some (t.drop 2) else none

/-- The `"' "` tail of the backtick alternative of `_re_cvsnt_error`. -/
def quoteSpaceTail (t : Bytes) : Option Bytes :=
  if t.take 2 = bs ("' ") then some (t.drop 2) else none

/-- Embeds `_re_cvsnt_error` (src/swh/loader/cvs/rlog.py lines 210-215):
`^(?:cvs rcsfile\: |cvs \[rcsfile aborted\]: )`
`(?:\`(.*,v)' |cannot open (.*,v)\: |(.*,v)\: |)(.*)$`.
Returns the optional captured filename and the message. -/
def matchCvsntError (line : Bytes) : Option (Option Bytes × Bytes) :=
  let core := if line.getLast? = some 10 then line.dropLast else line
  let pre1 := bs ("cvs rcsfile: ")
  let pre2 := bs ("cvs [rcsfile aborted]: ")
  let afterPre : Option Bytes :=
    if pre1.isPrefixOf core then some (core.drop pre1.length)
    else if pre2.isPrefixOf core then some (core.drop pre2.length)
    else none
  match afterPre with
  | none => none
  | some r =>
    if r.take 1 = bs ("`") then
      match greedyVComma (r.drop 1) quoteSpaceTail with
      | some (f, m) => some (some f, m)
      | none =>
        match greedyVComma r colonSpaceTail with
        | some (f, m) => some (some f, m)
        | none => some (none, r)
    else if (bs ("cannot open ")).isPrefixOf r then
      match greedyVComma (r.drop (bs ("cannot open ")).length) colonSpaceTail with
      | some (f, m) => some (some f, m)
      | none =>
        match greedyVComma r colonSpaceTail with
        | some (f, m) => some (some f, m)
        | none => some (none, r)
    else
      match greedyVComma r colonSpaceTail with
      | some (f, m) => some (some f, m)
      | none => some (none, r)

/- ### Date parsing (`cvs_strptime` and `calendar.timegm`) -/

/-- Days from the civil date to the Unix epoch (standard era-based civil
calendar computation); valid for the non-negative years produced by the
rlog date formats. -/
def daysFromCivil (y m d : Int) : Int :=
  let y1 := if m ≤ 2 then y - 1 else y
  let era := y1 / 400
  let yoe := y1 - era * 400
  let mp := (m + 9) % 12
  let doy := (153 * mp + 2) / 5 + d - 1
  let doe := yoe * 365 + yoe / 4 - yoe / 100 + doy
  era * 146097 + doe - 719468

/-- `calendar.timegm`: UTC seconds of a (year, month, day, hour, minute,
second) tuple. -/
def timegm (y mo d h mi s : Int) : Int :=
  daysFromCivil y mo d * 86400 + h * 3600 + mi * 60 + s

/-- A parsed time tuple (year, month, day, hour, minute, second). -/
structure TimeTuple where
  year : Int
  month : Int
  day : Int
  hour : Int
  minute : Int
  second : Int
deriving DecidableEq, Repr

/-- Range checks performed by `time.strptime` on the time fields. -/
def checkRanges (mo d h mi s : Nat) : Bool :=
  1 ≤ mo && mo ≤ 12 && 1 ≤ d && d ≤ 31 && h ≤ 23 && mi ≤ 59 && s ≤ 61

/-- `time.strptime(t, "%Y/%m/%d %H:%M:%S")`. -/
def parseDateSlash (b : Bytes) : Option TimeTuple :=
  match splitOnByte 32 b with
  | [dpart, tpart] =>
    match splitOnByte 47 dpart, splitOnByte 58 tpart with
    | [ys, mos, ds], [hs, mis, ss] =>
      match parseNatB ys, parseNatB mos, parseNatB ds,
            parseNatB hs, parseNatB mis, parseNatB ss with
      | some y, some mo, some d, some h, some mi, some s =>
        if checkRanges mo d h mi s then
          some ⟨y, mo, d, h, mi, s⟩
        else none
      | _, _, _, _, _, _ => none
    | _, _ => none
  | _ => none

/-- `time.strptime(t, "%Y-%m-%d %H:%M:%S %z")`.  The timezone offset is
parsed (sign and four digits) but, exactly as in the source, it is then
dropped: `cvs_strptime` returns the naive fields and `calendar.timegm`
interprets them as UTC. -/
def parseDateDash (b : Bytes) : Option TimeTuple :=
  match splitOnByte 32 b with
  | [dpart, tpart, zpart] =>
    match splitOnByte 45 dpart, splitOnByte 58 tpart with
    | [ys, mos, ds], [hs, mis, ss] =>
      match parseNatB ys, parseNatB mos, parseNatB ds,
            parseNatB hs, parseNatB mis, parseNatB ss with
      | some y, some mo, some d, some h, some mi, some s =>
        if checkRanges mo d h mi s &&
            (zpart.take 1 = bs ("+") || zpart.take 1 = bs ("-")) &&
            decide ((zpart.drop 1).length = 4) && (zpart.drop 1).all isDigitB then
          some ⟨y, mo, d, h, mi, s⟩
        else none
      | _, _, _, _, _, _ => none
    | _, _ => none
  | _ => none

/-- Embeds `cvs_strptime` (src/swh/loader/cvs/rlog.py lines 321-325): try
the slash format, then the dash format, else ValueError. -/
def cvsStrptime (b : Bytes) : Except CvsErr TimeTuple :=
  match parseDateSlash b with
  | some t => .ok t
  | none =>
    match parseDateDash b with
    | some t => .ok t
    | none => .error .valueError

/- ### The rlog stream -/

/-- The rlog stream: the list of its lines (each line carries its trailing
newline byte) and the index of the next line to read.  Byte offsets
(`fp.tell()`) are the summed lengths of the consumed lines; for the ASCII
streams considered this equals Python's byte offsets. -/
structure RStream where
  lines : List Bytes
  idx : Nat
deriving DecidableEq, Repr

/-- `fp.readline()`: the next line, or the empty byte string at EOF. -/
def rsReadline (s : RStream) : Bytes × RStream :=
  match s.lines[s.idx]? with
  | some l => (l, ⟨s.lines, s.idx + 1⟩)
  | none => ([], s)

/-- `fp.tell()`: the byte offset of the next line to read. -/
def rsTell (s : RStream) : Nat :=
  ((s.lines.take s.idx).map List.length).sum

/-- Number of unread lines (used as recursion fuel). -/
def rsRemaining (s : RStream) : Nat := s.lines.length - s.idx

/-- Line index corresponding to a byte offset produced by `rsTell` (offsets
recorded by the parser always point at a line start). -/
def seekIdx : List Bytes → Nat → Nat
  | _, 0 => 0
  | [], _ => 0
  | l :: rest, off => if l.length ≤ off then seekIdx rest (off - l.length) + 1 else 0

/-- `fp.seek(off)` on the rlog stream. -/
def rsSeek (lines : List Bytes) (off : Nat) : RStream := ⟨lines, seekIdx lines off⟩

/- ### `_parse_log_entry` -/

/-- The revision tuple built by `_parse_log_entry`
(src/swh/loader/cvs/rlog.py lines 395-409): indices 0..6 of the source
tuple are (revnum, date, author, state, branches, next, commitid); the
`None` placeholders at indices 4 and 5 are omitted here, and the commit-id
(index 6) is `None` in the source ("TODO: commitid"), hence `none` here
always.  The author is kept as raw bytes (the source does not decode it);
the state is ASCII-decoded, modelled as the raw bytes with an ASCII
check. -/
structure RevTuple where
  revnum : Bytes
  date : Int
  author : Bytes
  state : Bytes
  commitid : Option Bytes
deriving DecidableEq, Repr

/-- The groups captured by `_re_log_info`. -/
structure LogInfo where
  date : Bytes
  author : Bytes
  state : Bytes
  commitid : Option Bytes
deriving DecidableEq, Repr

/-- Embeds `_re_log_info` (src/swh/loader/cvs/rlog.py lines 309-315):
`^date:\s+([^;]+);\s+author:\s+([^;]+);\s+state:\s+([^;]+);`
`(\s+lines:\s+([0-9\s+-]+);?)?(\s+commitid:\s+([a-zA-Z0-9]+))?\n$`
implemented as a direct scanner: each `\s+` requires at least one
whitespace byte, each `([^;]+)` takes the non-empty run up to the next
semicolon, the two optional groups are attempted in order, and the line
must end with exactly a newline. -/
def matchLogInfo (line : Bytes) : Option LogInfo :=
  let field (tag : Bytes) (b : Bytes) : Option (Bytes × Bytes) :=
    if tag.isPrefixOf b then
      let r := b.drop tag.length
      let ws := r.takeWhile isSpaceB
      let r2 := r.drop ws.length
      let v := r2.takeWhile (fun c => c ≠ 59)
      let r3 := r2.drop v.length
      if ws ≠ [] ∧ v ≠ [] ∧ r3.take 1 = [59] then some (v, r3.drop 1) else none
    else none
  match field (bs ("date:")) line with
  | none => none
  | some (dateS, r1) =>
    let r1b := r1.dropWhile isSpaceB
    if r1 = r1b then none
    else
      match field (bs ("author:")) r1b with
      | none => none
      | some (authorS, r2) =>
        let r2b := r2.dropWhile isSpaceB
        if r2 = r2b then none
        else
          match field (bs ("state:")) r2b with
          | none => none
          | some (stateS, r3) =>
            let afterLines : Option Bytes :=
              let ws := r3.takeWhile isSpaceB
              let r4 := r3.drop ws.length
              if ws ≠ [] ∧ (bs ("lines:")).isPrefixOf r4 then
                let r5 := r4.drop 6
                let ws2 := r5.takeWhile isSpaceB
                let r6 := r5.drop ws2.length
                let body := r6.takeWhile (fun c => isDigitB c || isSpaceB c || c = 43 || c = 45)
                let r7 := r6.drop body.length
                if ws2 ≠ [] ∧ body ≠ [] then
                  some (if r7.take 1 = [59] then r7.drop 1 else r7)
                else none
              else none
            let r8 := afterLines.getD r3
            let commitid : Option Bytes × Bytes :=
              let ws := r8.takeWhile isSpaceB
              let r9 := r8.drop ws.length
              if ws ≠ [] ∧ (bs ("commitid:")).isPrefixOf r9 then
                let r10 := r9.drop 9
                let ws2 := r10.takeWhile isSpaceB
                let r11 := r10.drop ws2.length
                let body := r11.takeWhile (fun c =>
                  isDigitB c || (97 ≤ c && c ≤ 122) || (65 ≤ c && c ≤ 90))
                if ws2 ≠ [] ∧ body ≠ [] then (some body, r11.drop body.length)
                else (none, r8)
              else (none, r8)
            if commitid.2 = [10] then some ⟨dateS, authorS, stateS, commitid.1⟩
            else none

/-- Embeds `_re_rev` (src/swh/loader/cvs/rlog.py line 318):
`^revision\s+([0-9.]+).*`: the word "revision", at least one whitespace
byte, then the maximal non-empty run of digits and dots. -/
def matchRevNum (line : Bytes) : Option Bytes :=
  if line.take 8 = bs ("revision") then
    let r := line.drop 8
    let ws := r.takeWhile isSpaceB
    let r2 := r.drop ws.length
    let num := r2.takeWhile (fun c => c = 46 || isDigitB c)
    if ws ≠ [] ∧ num ≠ [] then some num else none
  else none

/-- The log-collection loop of `_parse_log_entry`
(src/swh/loader/cvs/rlog.py lines 357-374): collect lines into the log,
skipping a line starting with "branches:", until an entry separator (eof
None), the log end marker (eof FILE) or the end of the stream (eof LOG). -/
def logLoop : Nat → RStream → Bytes → Bytes × Option EofFlag × RStream
  | 0, s, acc => (acc, some .log, s)
  | n + 1, s, acc =>
    let p := rsReadline s
    if p.1 = [] then (acc, some .log, p.2)
    else if p.1.take 9 = bs ("branches:") then logLoop n p.2 acc
    else if p.1 = entryEndMarker then (acc, none, p.2)
    else if p.1 = logEndMarker then (acc, some .file, p.2)
    else logLoop n p.2 (acc ++ p.1)

/-- The date-to-timestamp conversion of `_parse_log_entry`
(src/swh/loader/cvs/rlog.py lines 380-392): `cvs_strptime`, the two-digit
year adjustment (`fixYear`), then `calendar.timegm`.  A ValueError
propagates. -/
def entryDate (dateS : Bytes) : Except CvsErr Int :=
  match cvsStrptime dateS with
  | .error e => .error e
  | .ok t =>
    match fixYear t.year with
    | .error _ => .error .valueError
    | .ok y => .ok (timegm y t.month t.day t.hour t.minute t.second)

/-- The tail of `_parse_log_entry` after the revision and info lines have
been read (src/swh/loader/cvs/rlog.py lines 357-409): collect the log, then
either report a parsing failure (no revision or no info match) or convert
the date and build the revision tuple. -/
def entryTail (rev : Option Bytes) (info : Option LogInfo) (s : RStream) :
    Except CvsErr (Option RevTuple × Option Bytes × Option EofFlag × RStream) :=
  let ll := logLoop (rsRemaining s + 1) s []
  let log := ll.1
  let eof := ll.2.1
  let s3 := ll.2.2
  match rev with
  | none => .ok (none, none, eof, s3)
  | some rv =>
    match info with
    | none => .ok (none, none, eof, s3)
    | some li =>
      match entryDate li.date with
      | .error e => .error e
      | .ok date =>
        if li.state.all (fun c => c < 128) then
          .ok (some ⟨rv, date, li.author, li.state, none⟩, some log, eof, s3)
        else .error .valueError

/-- Embeds `_parse_log_entry` (src/swh/loader/cvs/rlog.py lines 328-409).
Returns the revision tuple (or none), the log message (or none) and the
eof flag (or none), and the advanced stream.  A ValueError from the date
conversion or a non-ASCII state propagates as an error. -/
def parseLogEntry (s0 : RStream) : Except CvsErr (Option RevTuple × Option Bytes × Option EofFlag × RStream) :=
  let p := rsReadline s0
  let line := p.1
  let s1 := p.2
  if line = [] then .ok (none, none, some .log, s1)
  else if line = logEndMarker then .ok (none, none, some .file, s1)
  else if line.take 8 = bs ("revision") then
    match matchRevNum line with
    | none => .ok (none, none, some .log, s1)
    | some rev =>
      let q := rsReadline s1
      if q.1 = [] then .ok (none, none, some .log, q.2)
      else entryTail (some rev) (matchLogInfo q.1) q.2
  else entryTail none none s1

/- ### `_parse_log_header` -/

/-- The results of `_parse_log_header` (src/swh/loader/cvs/rlog.py lines
218-306): filename, default branch, tag dictionary, lock dictionary, error
message and eof flag. -/
structure HeaderOut where
  filename : Bytes
  branch : Bytes
  taginfo : List (Bytes × Bytes)
  lockinfo : List (Bytes × Bytes)
  msg : Bytes
  eof : Option EofFlag
deriving DecidableEq, Repr

/-- Embeds the loop of `_parse_log_header`
(src/swh/loader/cvs/rlog.py lines 240-304).  Note on states 1 and 2
(symbolic names / locks): the source tests `line[0] == b"\t"`, which in
Python 3 compares an integer (the first byte) with a bytes object and is
always False, so both branches immediately fall back to state 0 and the
tag and lock dictionaries always stay empty; the model reflects this by
resetting the state and processing the line in the base state.  In the
base state: "RCS file:" stores the filename, "head:" is skipped, "branch:"
stores the branch, "locks:" and "symbolic names" switch states, the entry
separator ends the header (eof none), the log end marker ends the file
entry (eof FILE), and otherwise the CVSNT and rlog error matchers are
tried: a matched CVSNT error with no filename raises (the source
references the undefined name `vclib`), a matched rlog error whose message
starts with "warning: Unknown phrases like " is skipped, and other matches
end the header with eof ERROR. -/
def parseLogHeaderLoop :
    Nat → RStream → Nat → Bytes → Bytes → List (Bytes × Bytes) →
    List (Bytes × Bytes) → Bytes → Except CvsErr (HeaderOut × RStream)
  | 0, _, _, _, _, _, _, _ => .error .fuel
  | n + 1, s, state, filename, branch, taginfo, lockinfo, msg =>
    let p := rsReadline s
    let line := p.1
    let s1 := p.2
    if line = [] then .ok (⟨filename, branch, taginfo, lockinfo, msg, some .log⟩, s1)
    else
      -- states 1 and 2 always fall back to state 0 (see the doc comment)
      let _ := state
      if line.take 9 = bs ("RCS file:") then
        parseLogHeaderLoop n s1 0 ((line.drop 10).dropLast) branch taginfo lockinfo msg
      else if line.take 5 = bs ("head:") then
        parseLogHeaderLoop n s1 0 filename branch taginfo lockinfo msg
      else if line.take 7 = bs ("branch:") then
        parseLogHeaderLoop n s1 0 filename ((line.drop 8).dropLast) taginfo lockinfo msg
      else if line.take 6 = bs ("locks:") then
        parseLogHeaderLoop n s1 2 filename branch taginfo lockinfo msg
      else if line.take 14 = bs ("symbolic names") then
        parseLogHeaderLoop n s1 1 filename branch taginfo lockinfo msg
      else if line = entryEndMarker then
        .ok (⟨filename, branch, taginfo, lockinfo, msg, none⟩, s1)
      else if line = logEndMarker then
        .ok (⟨filename, branch, taginfo, lockinfo, msg, some .file⟩, s1)
      else
        match matchCvsntError line with
        | some (fOpt, m) =>
          match fOpt with
          | some f => .ok (⟨f, branch, taginfo, lockinfo, m, some .error⟩, s1)
          | none =>
            -- `raise vclib.Error(...)`: the name vclib is undefined in the
            -- module, so this path raises NameError
            .error .nameError
        | none =>
          match matchLogError line with
          | some (f, m) =>
            if m.take 30 = bs ("warning: Unknown phrases like ") then
              parseLogHeaderLoop n s1 0 filename branch taginfo lockinfo msg
            else .ok (⟨f, branch, taginfo, lockinfo, m, some .error⟩, s1)
          | none => parseLogHeaderLoop n s1 0 filename branch taginfo lockinfo msg

/-- Embeds `_parse_log_header` (src/swh/loader/cvs/rlog.py lines 218-306). -/
def parseLogHeader (s : RStream) : Except CvsErr (HeaderOut × RStream) :=
  parseLogHeaderLoop (rsRemaining s + 1) s 0 [] [] [] [] []

/- ### `_process_rlog_entry` -/

/-- The conversion state of `RlogConv` (src/swh/loader/cvs/rlog.py lines
62-68): the changeset table, the tag table and the per-file offset
tables. -/
structure RlogState where
  changesets : List CSKey
  tags : List (Bytes × CSKey)
  offsets : List (Bytes × List (Bytes × Nat))
deriving DecidableEq, Repr

/-- Embeds the tag scan of `_process_rlog_entry`
(src/swh/loader/cvs/rlog.py lines 72-83): starting from
`branches = {"1": "HEAD", "1.1.1": "VENDOR"}`, a three-component tag value
maps to VENDOR, a magic branch value (penultimate component "0") maps its
canonical branch number to the tag name, and a two-component tag value
whose first component maps to HEAD is recorded in the reverse tag table;
the lookup `branches[r[0]]` raises KeyError when absent. -/
def scanTagsLoop :
    List (Bytes × Bytes) → List (Bytes × Bytes) → List (Bytes × List Bytes) →
    Except CvsErr (List (Bytes × Bytes) × List (Bytes × List Bytes))
  | [], branches, rtags => .ok (branches, rtags)
  | (k, v) :: rest, branches, rtags =>
    let r := splitDots v
    let branches1 :=
      if r.length = 3 then aset branches v (bs ("VENDOR"))
      else if 3 ≤ r.length ∧ r[r.length - 2]? = some (bs ("0")) then
        aset branches (joinDots (r.take (r.length - 2) ++ r.drop (r.length - 1))) k
      else branches
    if r.length = 2 then
      match aget branches1 (r.headD []) with
      | none => .error .keyError
      | some b0 =>
        if b0 = bs ("HEAD") then
          scanTagsLoop rest branches1 (aset rtags v ((aget rtags v).getD [] ++ [k]))
        else scanTagsLoop rest branches1 rtags
    else scanTagsLoop rest branches1 rtags

/-- The double sort of `_process_rlog_entry`
(src/swh/loader/cvs/rlog.py lines 85-89): the revision items are sorted by
revision-number string descending ("to priorize 1.1.1.1 than 1.1"), then
stably by timestamp ascending. -/
def sortRevs (items : List (Bytes × RevTuple)) : List (Bytes × RevTuple) :=
  List.insertionSort (fun p q => p.2.date ≤ q.2.date)
    (List.insertionSort (fun p q => q.2.revnum ≤ p.2.revnum) items)

/-- The case analysis of the per-revision loop of `_process_rlog_entry`
(src/swh/loader/cvs/rlog.py lines 94-127): given the loop flags
(novendor, have_initial_revision, last_vendor_status), the split revision
number `r` and the revision state, returns the updated flags and whether
the revision survives (true) or is skipped via `continue` (false); flag
updates made before a `continue` persist. -/
def revVerdict (novendor haveInit : Bool) (lastVendor : Option Bytes)
    (r : List Bytes) (state : Bytes) : (Bool × Bool × Option Bytes) × Bool :=
  let dead := bs ("dead")
  if r = [bs ("1"), bs ("1"), bs ("1"), bs ("1")] then
    if haveInit then ((novendor, haveInit, lastVendor), false)
    else if state = dead then ((novendor, haveInit, lastVendor), false)
    else ((novendor, true, some state), true)
  else if r.length = 4 ∧ r.take 3 = [bs ("1"), bs ("1"), bs ("1")] then
    if novendor then ((novendor, haveInit, lastVendor), false)
    else ((novendor, haveInit, some state), true)
  else if r.length = 2 then
    let step1 : Option (Bool × Bool) :=
      if r = [bs ("1"), bs ("1")] then
        if haveInit then none
        else if state = dead then none
        else some (novendor, true)
      else if r.headD [] = bs ("1") then some (true, haveInit)
      else some (novendor, haveInit)
    match step1 with
    | none => ((novendor, haveInit, lastVendor), false)
    | some (nv, hi) =>
      if lastVendor = some dead ∧ state = dead then ((nv, hi, none), false)
      else ((nv, hi, none), true)
  else ((novendor, haveInit, lastVendor), false)

/-- Embeds the per-revision loop of `_process_rlog_entry`
(src/swh/loader/cvs/rlog.py lines 90-145).  The loop state is
(novendor, have_initial_revision, last_vendor_status); each surviving
revision is fed to the clusterer (`clusterStep`) and the reverse tags of
its revision number update the tag table.  `branches[b]` and `logmsgs[k]`
raise KeyError when absent.  The author is kept as raw bytes (the source
decodes it lossily only to obtain an internal hash key). -/
def processRevLoop (fuzz : Int) (path : Bytes) (branches : List (Bytes × Bytes))
    (rtags : List (Bytes × List Bytes)) (logmsgs : List (Bytes × Bytes)) :
    List (Bytes × RevTuple) → Bool → Bool → Option Bytes → RlogState →
    Except CvsErr RlogState
  | [], _, _, _, st => .ok st
  | (k, v) :: rest, novendor, haveInit, lastVendor, st =>
    let r := splitDots k
    let verdict := revVerdict novendor haveInit lastVendor r v.state
    let novendor' := verdict.1.1
    let haveInit' := verdict.1.2.1
    let lastVendor' := verdict.1.2.2
    if verdict.2 = false then
      processRevLoop fuzz path branches rtags logmsgs rest novendor' haveInit' lastVendor' st
    else
      let b := joinDots r.dropLast
      match aget branches b with
      | none => .error .keyError
      | some brname =>
        match aget logmsgs k with
        | none => .error .keyError
        | some lm =>
          let x : ClusterRev := ⟨brname, v.author, v.date, lm, v.commitid, path, k, v.state⟩
          let cs := clusterStep fuzz st.changesets x
          let a := cs.headD (newCSKey x)
          let tags' :=
            match aget rtags k with
            | none => st.tags
            | some ts =>
              ts.foldl (fun acc t =>
                match aget acc t with
                | none => aset acc t a
                | some old => if old.max_time < a.max_time then aset acc t a else acc)
                st.tags
          processRevLoop fuzz path branches rtags logmsgs rest novendor' haveInit'
            lastVendor' { st with changesets := cs, tags := tags' }

/-- Embeds `_process_rlog_entry` (src/swh/loader/cvs/rlog.py lines
70-145): build the branch and reverse-tag tables from the tag info, sort
the revisions, then run the per-revision loop. -/
def processRlogEntry (fuzz : Int) (st : RlogState) (path : Bytes)
    (taginfo : List (Bytes × Bytes)) (revisions : List (Bytes × RevTuple))
    (logmsgs : List (Bytes × Bytes)) : Except CvsErr RlogState :=
  match scanTagsLoop taginfo [(bs ("1"), bs ("HEAD")), (bs ("1.1.1"), bs ("VENDOR"))] [] with
  | .error e => .error e
  | .ok (branches, rtags) =>
    processRevLoop fuzz path branches rtags logmsgs (sortRevs revisions) false false none st

/- ### `parse_rlog` and `getlog` -/

/-- Modelled from the spec: `file_path(cvsroot, rcs_path)` of the vendored
cvs2gitdump module (absent from src/): the repository-relative path of an
RCS file; the ",v" suffix is removed, an "Attic" component immediately
before the basename is dropped, and the CVSROOT prefix is removed (spec
section 6, local repository layout). -/
def filePath (root p : Bytes) : Bytes :=
  let root1 := if root.getLast? = some 47 then root.dropLast else root
  let p1 := if (bs (",v")).isSuffixOf p then p.dropLast.dropLast else p
  let comps := splitOnByte 47 p1
  let comps2 :=
    if 2 ≤ comps.length ∧ comps[comps.length - 2]? = some (bs ("Attic")) then
      comps.take (comps.length - 2) ++ comps.drop (comps.length - 1)
    else comps
  let p2 := joinSep 47 comps2
  if root1.isPrefixOf p2 then p2.drop (root1.length + 1) else p2

/-- Embeds the inner revision loop of `parse_rlog`
(src/swh/loader/cvs/rlog.py lines 161-166): `while not eof:`
`off = fp.tell(); rev, logmsg, eof = _parse_log_entry(fp);`
`if rev: revisions[rev[0]] = rev; logmsgs[rev[0]] = logmsg`.
The loop-local `off` and `rev` keep only their values from the last
iteration; those are returned along with the collected dictionaries. -/
def parseEntriesLoop (fuel : Nat) (s : RStream)
    (revisions : List (Bytes × RevTuple)) (logmsgs : List (Bytes × Bytes))
    (lastOff : Nat) (lastRev : Option Bytes) :
    Except CvsErr (List (Bytes × RevTuple) × List (Bytes × Bytes) × Nat ×
      Option Bytes × Option EofFlag × RStream) :=
  match fuel with
  | 0 => .error .fuel
  | fuel + 1 =>
    let off := rsTell s
    match parseLogEntry s with
    | .error e => .error e
    | .ok (revOpt, logOpt, eofOpt, s1) =>
      let revisions1 :=
        match revOpt with
        | some rt => aset revisions rt.revnum rt
        | none => revisions
      let logmsgs1 :=
        match revOpt with
        | some rt => aset logmsgs rt.revnum (logOpt.getD [])
        | none => logmsgs
      let lastRev1 := revOpt.map (·.revnum)
      match eofOpt with
      | none => parseEntriesLoop fuel s1 revisions1 logmsgs1 off lastRev1
      | some e =>
        let _ := lastOff
        let _ := lastRev
        .ok (revisions1, logmsgs1, off, lastRev1, some e, s1)

/-- Embeds the outer loop of `parse_rlog` (src/swh/loader/cvs/rlog.py
lines 147-173).  For each file entry: parse the header; if it did not end
the stream, parse the revision entries; then, unless the log or an error
ended the stream, compute the file path, record in the offsets table the
byte offset of the last parsed revision entry only (the source performs
the `offsets` assignment of lines 169-172 after the inner loop), and feed
the entry to `_process_rlog_entry`.  A missing filename where the source
would reference an unbound local is modelled as a NameError. -/
def parseRlogLoop (fuzz : Int) (cvsroot : Bytes) :
    Nat → RStream → RlogState → Except CvsErr RlogState
  | 0, _, _ => .error .fuel
  | fuel + 1, s, st =>
    match parseLogHeader s with
    | .error e => .error e
    | .ok (h, s1) =>
      let inner :=
        if h.eof = none then parseEntriesLoop (rsRemaining s1 + 1) s1 [] [] 0 none
        else .ok ([], [], 0, none, h.eof, s1)
      match inner with
      | .error e => .error e
      | .ok (revisions, logmsgs, lastOff, lastRev, eofFinal, s2) =>
        if eofFinal ≠ some .log ∧ eofFinal ≠ some .error then
          if h.filename = [] then .error .nameError
          else
            let path := filePath cvsroot h.filename
            let offsets1 :=
              if (aget st.offsets path).isSome then st.offsets
              else aset st.offsets path []
            let offsets2 :=
              match lastRev with
              | some rv => aset offsets1 path (aset ((aget offsets1 path).getD []) rv lastOff)
              | none => offsets1
            match processRlogEntry fuzz { st with offsets := offsets2 } path
                h.taginfo revisions logmsgs with
            | .error e => .error e
            | .ok st2 => parseRlogLoop fuzz cvsroot fuel s2 st2
        else .ok st

/-- Embeds `RlogConv.parse_rlog` (src/swh/loader/cvs/rlog.py lines
147-173) run on a whole rlog stream, starting from an empty conversion
state. -/
def parseRlog (fuzz : Int) (cvsroot : Bytes) (lines : List Bytes) :
    Except CvsErr RlogState :=
  parseRlogLoop fuzz cvsroot (lines.length + 2) ⟨lines, 0⟩ ⟨[], [], []⟩

/-- Embeds `RlogConv.getlog` (src/swh/loader/cvs/rlog.py lines 175-179):
look up the recorded offset of (path, rev) — a missing entry raises
KeyError, modelled as `none` — seek there and re-parse a single revision
entry, returning its log message. -/
def getlog (lines : List Bytes) (st : RlogState) (path rv : Bytes) : Option Bytes :=
  match aget st.offsets path with
  | none => none
  | some m =>
    match aget m rv with
    | none => none
    | some off =>
      match parseLogEntry (rsSeek lines off) with
      | .error _ => none
      | .ok (_, logOpt, _, _) => logOpt

/- ### Trunk-only invariant (C8) and the C1 test stream -/

/-- The revision numbers admitted by the clusterer according to claim C8:
trunk revisions (dotted length 2, labelled HEAD) and vendor-branch
revisions (dotted length 4 under 1.1.1, labelled VENDOR). -/
def trunkOrVendor (k : Bytes) : Prop :=
  (splitDots k).length = 2 ∨
  ((splitDots k).length = 4 ∧ (splitDots k).take 3 = [bs ("1"), bs ("1"), bs ("1")])

instance (k : Bytes) : Decidable (trunkOrVendor k) := by
  unfold trunkOrVendor; infer_instance

/-- Every file revision stored in any changeset of the state is a trunk or
vendor revision. -/
def stateTrunkOnly (st : RlogState) : Prop :=
  ∀ c ∈ st.changesets, ∀ fr ∈ c.revs, trunkOrVendor fr.revnum

instance (st : RlogState) : Decidable (stateTrunkOnly st) := by
  unfold stateTrunkOnly; infer_instance

/-- A concrete rlog stream for one RCS file with two revisions (1.2 then
1.1, newest first, as `cvs rlog` prints them). -/
def c1RlogLines : List Bytes :=
  [bs ("RCS file: /cvsroot/mod/a.txt,v\n"),
   entryEndMarker,
   bs ("revision 1.2\n"),
   bs ("date: 2005/01/02 10:00:00;  author: bob;  state: Exp;\n"),
   bs ("log message two\n"),
   entryEndMarker,
   bs ("revision 1.1\n"),
   bs ("date: 2005/01/01 10:00:00;  author: bob;  state: Exp;\n"),
   bs ("log message one\n"),
   logEndMarker]

/-- The conversion state produced by `parse_rlog` on `c1RlogLines`. -/
def c1State : RlogState :=
  match parseRlog 300 (bs ("/cvsroot")) c1RlogLines with
  | .ok st => st
  | .error _ => ⟨[], [], []⟩

/- ### The wire-client line reader and checkout (C6) -/

/-- Split a byte string into lines, each keeping its trailing newline; a
trailing run without a newline forms a final piece (Python
`bytes.splitlines(keepends=True)` restricted to the newline byte, which is
the only line separator the CVS protocol uses). -/
def splitKeepNL : Bytes → List Bytes
  | [] => []
  | c :: rest =>
    if c = 10 then [c] :: splitKeepNL rest
    else
      match splitKeepNL rest with
      | [] => [[c]]
      | h :: t => (c :: h) :: t

/-- Index of the last newline byte (`buf.rfind(b"\n")`), or none. -/
def lastNLIdx (b : Bytes) : Option Nat :=
  match b.reverse.findIdx? (fun c => c = 10) with
  | some j => some (b.length - 1 - j)
  | none => none

/-- Connection state of `CVSClient` (src/swh/loader/cvs/cvsclient.py lines
187-188): the pending line buffer, the pending incomplete line, and the
bytes not yet delivered by the peer.  The model delivers the whole
remaining stream in a single `recv` (a well-behaved peer; the 8192-byte
limit of the source is only reachable when the buffered data holds no
newline at all). -/
structure Conn where
  linebuffer : List Bytes
  incomplete : Bytes
  stream : Bytes
deriving DecidableEq, Repr

/-- Embeds `CVSClient.conn_read_line` (src/swh/loader/cvs/cvsclient.py
lines 121-154): pop the line buffer if non-empty; otherwise receive, fail
on an empty connection (None), split the received bytes at the last
newline into the line buffer (prepending the pending incomplete line to
the first piece and keeping the remainder as the new incomplete line), or,
with no newline at all, fail for an overlong response when a newline is
required (else return the raw buffer), and pop the first line.  A
no-newline buffer below the size limit would make the source wait forever
for more data (`blocked`). -/
def connReadLine (requireNL : Bool) (c : Conn) : Except CvsErr (Option Bytes × Conn) :=
  match c.linebuffer with
  | l :: rest => .ok (some l, { c with linebuffer := rest })
  | [] =>
    let buf := c.stream
    if buf = [] then .ok (none, c)
    else
      match lastNLIdx buf with
      | some i =>
        match splitKeepNL (buf.take (i + 1)) with
        | h :: t => .ok (some (c.incomplete ++ h), ⟨t, buf.drop (i + 1), []⟩)
        | [] => .error .blocked
      | none =>
        if 8192 ≤ buf.length then
          if requireNL then .error (.protocolError "overlong response")
          else .ok (some (c.incomplete ++ buf), ⟨[], [], []⟩)
        else .error .blocked

/-- Sub-sequence search (`_re_kb_opt.search`): true iff `pat` occurs
contiguously inside `b`. -/
def containsSeg (pat b : Bytes) : Bool :=
  (List.range (b.length + 1)).any fun i => (b.drop i).take pat.length = pat

/-- `int(response[0:-1])` on a byte-count line
(src/swh/loader/cvs/cvsclient.py lines 301-304): drop the final byte and
read the remaining digits (the protocol sends plain decimal counts). -/
def parseBytecount (b : Bytes) : Option Int :=
  let core := b.dropLast
  if core ≠ [] ∧ core.all isDigitB then some ((digitsToNat core : Nat) : Int) else none

/-- The loop state of `CVSClient.checkout`
(src/swh/loader/cvs/cvsclient.py lines 263-267 and the writes of the
loop): the connection, the `skip_line` / `expect_modeline` /
`expect_bytecount` / `have_bytecount` flags, the remaining byte count and
the bytes written to the checkout output file. -/
structure CoState where
  conn : Conn
  skip_line : Bool
  expect_modeline : Bool
  expect_bytecount : Bool
  have_bytecount : Bool
  bytecount : Int
  out : Bytes
deriving DecidableEq, Repr

/-- Embeds the response loop of `CVSClient.checkout`
(src/swh/loader/cvs/cvsclient.py lines 281-332), one iteration per fuel
unit (each iteration consumes at least one byte of the reply, so the fuel
supplied by `checkoutRun` is never exhausted).  While a positive declared
byte count remains, raw reads are appended to the output and an overrun
raises; otherwise a line is read (None raises TypeError via
`response[0:2]`), E-lines raise, `ok` after a completed count returns the
output, the bookkeeping lines are handled in the order of the source, and
anything else raises. -/
def coLoop : Nat → CoState → Except CvsErr Bytes
  | 0, _ => .error .fuel
  | n + 1, st =>
    if st.have_bytecount ∧ st.bytecount > 0 then
      match connReadLine false st.conn with
      | .error e => .error e
      | .ok (none, _) => .error (.protocolError "incomplete response")
      | .ok (some resp, conn1) =>
        let bc := st.bytecount - resp.length
        if bc < 0 then .error (.protocolError "overlong data")
        else coLoop n { st with conn := conn1, out := st.out ++ resp, bytecount := bc }
    else
      match connReadLine true st.conn with
      | .error e => .error e
      | .ok (none, _) => .error .typeError
      | .ok (some resp, conn1) =>
        if resp.take 2 = bs ("E ") then .error (.serverError resp)
        else if st.have_bytecount ∧ st.bytecount = 0 ∧ resp = bs ("ok\n") then .ok st.out
        else if st.skip_line then coLoop n { st with conn := conn1, skip_line := false }
        else if st.expect_bytecount then
          match parseBytecount resp with
          | none => .error (.badResponse resp)
          | some bc => coLoop n { st with conn := conn1, bytecount := bc, have_bytecount := true }
        else if resp = bs ("M \n") then coLoop n { st with conn := conn1 }
        else if resp = bs ("MT +updated\n") then coLoop n { st with conn := conn1 }
        else if resp = bs ("MT -updated\n") then coLoop n { st with conn := conn1 }
        else if resp.take 9 = bs ("MT fname ") then coLoop n { st with conn := conn1 }
        else if resp.take 8 = bs ("Created ") then coLoop n { st with conn := conn1, skip_line := true }
        else if resp.take 1 = bs ("/") ∧ containsSeg (bs ("/-kb/")) resp then
          coLoop n { st with conn := conn1, expect_modeline := true }
        else if st.expect_modeline ∧ resp.take 2 = bs ("u=") then
          coLoop n { st with conn := conn1, expect_modeline := false, expect_bytecount := true }
        else if resp.take 2 = bs ("M ") then coLoop n { st with conn := conn1 }
        else if resp.take 8 = bs ("MT text ") then coLoop n { st with conn := conn1 }
        else if resp.take 10 = bs ("MT newline") then coLoop n { st with conn := conn1 }
        else .error (.badResponse resp)

/-- Run the checkout response loop on a whole server reply, starting from
a fresh connection holding the reply.  The fuel exceeds the reply size, so
it is never exhausted (every iteration consumes at least one byte). -/
def checkoutRun (reply : Bytes) : Except CvsErr Bytes :=
  coLoop (reply.length + 2) ⟨⟨[], [], reply⟩, false, false, false, false, 0, []⟩

/-- The entry line of a checkout reply (matches `_re_kb_opt`). -/
def coEntryLine : Bytes := bs ("/a.txt/1.1//-kb/\n")

/-- The mode line of a checkout reply. -/
def coModeLine : Bytes := bs ("u=rw\n")

/-- The final `ok` line of a server reply. -/
def okLine : Bytes := bs ("ok\n")

/-- A checkout server reply: entry line, mode line, byte-count line, the
file data, and the closing ok line. -/
def c6Stream (cnt : Bytes) (data : Bytes) : Bytes :=
  coEntryLine ++ coModeLine ++ cnt ++ data ++ okLine

/-- A byte string that is one protocol line: non-empty, no interior
newline, and a final newline byte. -/
def nlLine (l : Bytes) : Prop :=
  l ≠ [] ∧ l.dropLast.all (fun c => c ≠ 10) ∧ l.getLast? = some 10

instance (l : Bytes) : Decidable (nlLine l) := by
  unfold nlLine; infer_instance

/- ### Changeset ordering and the emitted commit chain (C5) -/

/-- Modelled from the spec: the sort key of a changeset, spec section 3:
"Ordering is by max_time ascending, with deterministic tie-breaks on
(branch, author, log)" (the `__lt__` of the vendored cvs2gitdump
ChangeSetKey is absent from src/).  Lexicographic order on the quadruple. -/
def csOrdKey (a : CSKey) : ℤ ×ₗ (Bytes ×ₗ (Bytes ×ₗ Bytes)) :=
  toLex (a.max_time, toLex (a.branch, toLex (a.author, a.log)))

/-- Modelled from the spec: the changeset ordering used by
`sorted(cvs.changesets)` / `sorted(self.rlog.changesets)`
(src/swh/loader/cvs/loader.py lines 401 and 420). -/
def csLe (a b : CSKey) : Prop := csOrdKey a ≤ csOrdKey b

instance : DecidableRel csLe :=
  fun a b => inferInstanceAs (Decidable (csOrdKey a ≤ csOrdKey b))

instance : IsTotal CSKey csLe := ⟨fun a b => le_total (csOrdKey a) (csOrdKey b)⟩

instance : IsTrans CSKey csLe := ⟨fun _ _ _ h1 h2 => le_trans h1 h2⟩

/-- The sorted changeset list of `CvsLoader.prepare`
(src/swh/loader/cvs/loader.py lines 401 and 420). -/
def sortedChangesets (l : List CSKey) : List CSKey := List.insertionSort csLe l

/-- A commit as emitted by `compute_swh_revision` / `build_swh_revision`
(src/swh/loader/cvs/loader.py lines 111-134 and 442-471): its author and
committer timestamp is the changeset's `max_time`, and its parent is the
previously emitted commit (none for the first).  Commit identity is the
position in the emitted sequence. -/
structure LoaderCommit where
  timestamp : Int
  parent : Option Nat
deriving DecidableEq, Repr

/-- The chain of commits emitted for a changeset list: commit i carries the
i-th changeset's max_time and points to commit i-1 (none for i = 0),
embedding the `_last_revision` threading of `compute_swh_revision`. -/
def commitChain (cs : List CSKey) : List LoaderCommit :=
  cs.enum.map fun p => ⟨p.2.max_time, if p.1 = 0 then none else some (p.1 - 1)⟩

/- ### Theorems -/

/-- Auxiliary: the changeset ordering is by ascending max_time first. -/
theorem csLe_max_time_le (a b : CSKey) (h : csLe a b) : a.max_time ≤ b.max_time := by
  unfold csLe csOrdKey at h
  rw [Prod.Lex.le_iff] at h
  rcases h with h | ⟨h, _⟩
  · exact le_of_lt h
  · exact le_of_eq h

/-- Auxiliary: the commit chain has one commit per changeset. -/
theorem commitChain_length (cs : List CSKey) :
    (commitChain cs).length = cs.length := by
  simp [commitChain]

/-- Auxiliary: the shape of the j-th emitted commit. -/
theorem commitChain_get (cs : List CSKey) (j : Nat)
    (hj : j < (commitChain cs).length) :
    (commitChain cs).get ⟨j, hj⟩ =
      ⟨(cs.get ⟨j, by rw [commitChain_length] at hj; exact hj⟩).max_time,
        if j = 0 then none else some (j - 1)⟩ := by
  simp [commitChain, List.get_eq_getElem, List.getElem_map, List.getElem_enum]

/-- Claim C5: for every emitted commit with a parent, the parent is exactly
the previously emitted commit and the commit's timestamp (the changeset's
max_time) is at least the parent's timestamp, because the changesets are
processed in ascending changeset order (max_time first). -/
theorem C5_commit_timestamps_monotone (l : List CSKey) (i : Nat)
    (h : i + 1 < (commitChain (sortedChangesets l)).length) :
    ((commitChain (sortedChangesets l)).get ⟨i + 1, h⟩).parent = some i ∧
    ((commitChain (sortedChangesets l)).get ⟨i, Nat.lt_of_succ_lt h⟩).timestamp ≤
      ((commitChain (sortedChangesets l)).get ⟨i + 1, h⟩).timestamp := by
  constructor
  · rw [commitChain_get]
    simp
  · rw [commitChain_get, commitChain_get]
    have hs : List.Sorted csLe (sortedChangesets l) :=
      List.sorted_insertionSort csLe l
    exact csLe_max_time_le _ _
      (hs.rel_get_of_lt (show (⟨i, _⟩ : Fin _) < ⟨i + 1, _⟩ from
        Fin.mk_lt_mk.mpr (Nat.lt_succ_self i)))

/-- Witness for C5 at a concrete pair of changesets: the commit emitted
second points back to the first and carries the later max_time. -/
theorem C5_commit_timestamps_monotone_witness :
    ((commitChain (sortedChangesets
        [⟨bs ("HEAD"), bs ("alice"), bs ("m1"), none, 5, 5, []⟩,
         ⟨bs ("HEAD"), bs ("bob"), bs ("m2"), none, 1, 2, []⟩])).get
      ⟨1, by decide⟩).parent = some 0 ∧
    ((commitChain (sortedChangesets
        [⟨bs ("HEAD"), bs ("alice"), bs ("m1"), none, 5, 5, []⟩,
         ⟨bs ("HEAD"), bs ("bob"), bs ("m2"), none, 1, 2, []⟩])).get
      ⟨0, by decide⟩).timestamp ≤
      ((commitChain (sortedChangesets
        [⟨bs ("HEAD"), bs ("alice"), bs ("m1"), none, 5, 5, []⟩,
         ⟨bs ("HEAD"), bs ("bob"), bs ("m2"), none, 1, 2, []⟩])).get
      ⟨1, by decide⟩).timestamp :=
  C5_commit_timestamps_monotone
    [⟨bs ("HEAD"), bs ("alice"), bs ("m1"), none, 5, 5, []⟩,
     ⟨bs ("HEAD"), bs ("bob"), bs ("m2"), none, 1, 2, []⟩] 0 (by decide)

/-- Counterexample to claim C6 as stated: a reply declaring 3 data bytes
whose data "abc" is not newline-terminated does not make checkout write
exactly 3 bytes and return a handle; the line reader merges "abc" with the
following ok line, the count is exceeded, and checkout fails with the
overlong-response protocol error. -/
theorem C6_checkout_nonterminated_cex :
    checkoutRun (c6Stream (bs ("3\n")) (bs ("abc"))) =
      .error (.protocolError "overlong data") ∧
    checkoutRun (c6Stream (bs ("3\n")) (bs ("abc"))) ≠ .ok (bs ("abc")) := by
  refine ⟨by decide, by decide⟩

theorem connReadLine_cons (rn : Bool) (l : Bytes) (rest : List Bytes)
    (inc strm : Bytes) :
    connReadLine rn ⟨l :: rest, inc, strm⟩ = .ok (some l, ⟨rest, inc, strm⟩) := rfl

theorem split_core_append (core : Bytes) (rest : Bytes) (h : ∀ c ∈ core, c ≠ 10) :
    splitKeepNL (core ++ 10 :: rest) = (core ++ [10]) :: splitKeepNL rest := by
  induction core with
  | nil => simp [splitKeepNL]
  | cons c core ih =>
    have hc : c ≠ 10 := h c (List.mem_cons_self _ _)
    rw [List.cons_append, splitKeepNL]
    rw [if_neg hc, ih (fun x hx => h x (List.mem_cons_of_mem _ hx))]
    rfl

theorem nlLine_decomp (l : Bytes) (h : nlLine l) :
    ∃ core, l = core ++ [10] ∧ ∀ c ∈ core, c ≠ 10 := by
  obtain ⟨h1, h2, h3⟩ := h
  refine ⟨l.dropLast, ?_, ?_⟩
  · have h4 := List.dropLast_append_getLast h1
    have h5 : l.getLast h1 = 10 := by
      rw [List.getLast?_eq_getLast l h1] at h3
      exact Option.some.inj h3
    rw [h5] at h4
    exact h4.symm
  · intro c hc
    exact of_decide_eq_true (List.all_eq_true.mp h2 c hc)

theorem nlLine_split_append (l rest : Bytes) (h : nlLine l) :
    splitKeepNL (l ++ rest) = l :: splitKeepNL rest := by
  obtain ⟨core, rfl, hc⟩ := nlLine_decomp l h
  rw [List.append_assoc, List.singleton_append, split_core_append core rest hc]

theorem split_join_append (pieces : List Bytes) (rest : Bytes)
    (h : ∀ p ∈ pieces, nlLine p) :
    splitKeepNL (pieces.flatten ++ rest) = pieces ++ splitKeepNL rest := by
  induction pieces with
  | nil => simp
  | cons p ps ih =>
    have hj : (p :: ps).flatten = p ++ ps.flatten := rfl
    rw [hj, List.append_assoc,
      nlLine_split_append p _ (h p (List.mem_cons_self _ _)),
      ih (fun q hq => h q (List.mem_cons_of_mem _ hq)), List.cons_append]

theorem split_noNL_prepend (raw : Bytes) (l : Bytes) (hd : Bytes) (tl : List Bytes)
    (h10 : ∀ c ∈ raw, c ≠ 10) (h : splitKeepNL l = hd :: tl) :
    splitKeepNL (raw ++ l) = (raw ++ hd) :: tl := by
  induction raw with
  | nil => simpa using h
  | cons c raw ih =>
    have hc : c ≠ 10 := h10 c (List.mem_cons_self _ _)
    rw [List.cons_append, splitKeepNL, if_neg hc,
      ih (fun x hx => h10 x (List.mem_cons_of_mem _ hx))]
    rfl

theorem lastNLIdx_append_okLine (a : Bytes) :
    lastNLIdx (a ++ okLine) = some ((a ++ okLine).length - 1) := by
  unfold lastNLIdx okLine
  have : (a ++ bs ("ok\n")).reverse = 10 :: 107 :: 111 :: a.reverse := by
    simp [bs]
  rw [this]
  simp [List.findIdx?_cons]

theorem connReadLine_stream (rn : Bool) (stream : Bytes) (hne : stream ≠ [])
    (hl : lastNLIdx stream = some (stream.length - 1))
    (hd : Bytes) (tl : List Bytes) (hsplit : splitKeepNL stream = hd :: tl) :
    connReadLine rn ⟨[], [], stream⟩ = .ok (some hd, ⟨tl, [], []⟩) := by
  unfold connReadLine
  simp only
  rw [if_neg hne, hl]
  have hlen : stream.length - 1 + 1 = stream.length := by
    have : 0 < stream.length := List.length_pos.mpr hne
    omega
  dsimp only
  rw [hlen, List.take_length, hsplit, List.drop_length]
  simp

theorem coLoop_recvAll (fuel : Nat) (stream : Bytes) (hne : stream ≠ [])
    (hl : lastNLIdx stream = some (stream.length - 1))
    (hd : Bytes) (tl : List Bytes) (hsplit : splitKeepNL stream = hd :: tl)
    (sk em eb hb : Bool) (bc : Int) (out : Bytes) :
    coLoop fuel ⟨⟨[], [], stream⟩, sk, em, eb, hb, bc, out⟩ =
      coLoop fuel ⟨⟨hd :: tl, [], []⟩, sk, em, eb, hb, bc, out⟩ := by
  cases fuel with
  | zero => rfl
  | succ n =>
    rw [coLoop, coLoop]
    simp only [connReadLine_stream false stream hne hl hd tl hsplit,
      connReadLine_stream true stream hne hl hd tl hsplit, connReadLine_cons]

theorem coLoop_entry_step (n : Nat) (lb : List Bytes) (inc strm : Bytes) :
    coLoop (n + 1) ⟨⟨coEntryLine :: lb, inc, strm⟩, false, false, false, false, 0, []⟩ =
      coLoop n ⟨⟨lb, inc, strm⟩, false, true, false, false, 0, []⟩ := by
  rw [coLoop, if_neg (by simp), connReadLine_cons]
  dsimp only
  rw [if_neg (by decide), if_neg (by simp), if_neg (by decide), if_neg (by decide),
      if_neg (by decide), if_neg (by decide), if_neg (by decide), if_neg (by decide),
      if_neg (by decide), if_pos (by decide)]

theorem coLoop_mode_step (n : Nat) (lb : List Bytes) (inc strm : Bytes) :
    coLoop (n + 1) ⟨⟨coModeLine :: lb, inc, strm⟩, false, true, false, false, 0, []⟩ =
      coLoop n ⟨⟨lb, inc, strm⟩, false, false, true, false, 0, []⟩ := by
  rw [coLoop, if_neg (by simp), connReadLine_cons]
  dsimp only
  rw [if_neg (by decide), if_neg (by simp), if_neg (by decide), if_neg (by decide),
      if_neg (by decide), if_neg (by decide), if_neg (by decide), if_neg (by decide),
      if_neg (by decide), if_neg (by decide), if_pos (by decide)]

theorem coLoop_cnt_step (n : Nat) (lb : List Bytes) (inc strm : Bytes)
    (core : Bytes) (N : Int) (hne : core ≠ []) (hdig : core.all isDigitB = true)
    (hN : ((digitsToNat core : Nat) : Int) = N) :
    coLoop (n + 1) ⟨⟨(core ++ [10]) :: lb, inc, strm⟩, false, false, true, false, 0, []⟩ =
      coLoop n ⟨⟨lb, inc, strm⟩, false, false, true, true, N, []⟩ := by
  obtain ⟨d, core', rfl⟩ : ∃ d core', core = d :: core' := by
    cases core with
    | nil => exact absurd rfl hne
    | cons d core' => exact ⟨d, core', rfl⟩
  have hd : isDigitB d = true := by
    have := List.all_eq_true.mp hdig d (List.mem_cons_self _ _)
    simpa using this
  have hE : ¬ (((d :: core') ++ [10]).take 2 = bs ("E ")) := by
    intro hEq
    have hbsE : bs ("E ") = [69, 32] := by decide
    rw [hbsE, List.cons_append, List.take_succ_cons] at hEq
    have hd69 : d = 69 := ((List.cons.injEq _ _ _ _).mp hEq).1
    unfold isDigitB at hd
    rw [hd69] at hd
    simp at hd
  have hpb : parseBytecount ((d :: core') ++ [10]) = some N := by
    rw [parseBytecount]
    simp only [List.dropLast_concat]
    rw [if_pos ⟨hne, hdig⟩, hN]
  rw [coLoop, if_neg (by simp), connReadLine_cons]
  dsimp only
  rw [if_neg hE, if_neg (by simp), if_neg (by decide), if_pos (by decide), hpb]

theorem length_le_flatten_length (pieces : List Bytes)
    (hp : ∀ p ∈ pieces, p ≠ []) : pieces.length ≤ pieces.flatten.length := by
  induction pieces with
  | nil => simp
  | cons p ps ih =>
    have h1 : 1 ≤ p.length := List.length_pos.mpr (hp p (List.mem_cons_self _ _))
    have h2 := ih (fun q hq => hp q (List.mem_cons_of_mem _ hq))
    simp only [List.flatten_cons, List.length_cons, List.length_append]
    omega

theorem coLoop_data (pieces : List Bytes) (hp : ∀ p ∈ pieces, p ≠ []) :
    ∀ (n : Nat), pieces.length < n → ∀ (sk em eb : Bool) (inc strm out : Bytes) (bc : Int),
      bc = (pieces.flatten.length : Int) →
      coLoop n ⟨⟨pieces ++ [okLine], inc, strm⟩, sk, em, eb, true, bc, out⟩ =
        .ok (out ++ pieces.flatten) := by
  induction pieces with
  | nil =>
    intro n hn sk em eb inc strm out bc hbc
    match n, hn with
    | n + 1, _ =>
      subst hbc
      rw [coLoop, if_neg (by simp)]
      rw [List.nil_append, connReadLine_cons]
      dsimp only
      rw [if_neg (by decide), if_pos (by simp [okLine])]
      simp
  | cons p ps ih =>
    intro n hn sk em eb inc strm out bc hbc
    have hp0 : p ≠ [] := hp p (List.mem_cons_self _ _)
    have hplen : 1 ≤ p.length := List.length_pos.mpr hp0
    have hflat : ((p :: ps).flatten : Bytes) = p ++ ps.flatten := List.flatten_cons
    match n, hn with
    | n + 1, hn =>
      rw [coLoop]
      rw [if_pos ?hpos]
      case hpos =>
        refine ⟨rfl, ?_⟩
        rw [hbc, hflat]
        simp only [List.length_append]
        push_cast
        omega
      rw [List.cons_append, connReadLine_cons]
      dsimp only
      rw [if_neg ?hneg]
      case hneg =>
        rw [hbc, hflat]
        simp only [List.length_append]
        push_cast
        omega
      rw [ih (fun q hq => hp q (List.mem_cons_of_mem _ hq)) n (by simpa using hn)
        sk em eb inc strm (out ++ p) _ ?hbc2]
      case hbc2 =>
        rw [hbc, hflat]
        simp only [List.length_append]
        push_cast
        omega
      rw [hflat, List.append_assoc]

theorem coLoop_data_overlong (pieces : List Bytes) (raw : Bytes)
    (hp : ∀ p ∈ pieces, p ≠ []) (hraw : raw ≠ []) :
    ∀ (n : Nat), pieces.length < n → ∀ (sk em eb : Bool) (inc strm out : Bytes) (bc : Int),
      bc = ((pieces.flatten ++ raw).length : Int) →
      coLoop n ⟨⟨pieces ++ [raw ++ okLine], inc, strm⟩, sk, em, eb, true, bc, out⟩ =
        .error (.protocolError "overlong data") := by
  induction pieces with
  | nil =>
    intro n hn sk em eb inc strm out bc hbc
    have hrlen : 1 ≤ raw.length := List.length_pos.mpr hraw
    match n, hn with
    | n + 1, _ =>
      rw [coLoop]
      rw [if_pos ?hpos1]
      case hpos1 =>
        refine ⟨rfl, ?_⟩
        rw [hbc]
        simp only [List.flatten_nil, List.nil_append]
        omega
      rw [List.nil_append, connReadLine_cons]
      dsimp only
      rw [if_pos ?hpos2]
      case hpos2 =>
        rw [hbc]
        have hok : (okLine : Bytes).length = 3 := by decide
        simp only [List.flatten_nil, List.nil_append, List.length_append, hok]
        push_cast
        omega
  | cons p ps ih =>
    intro n hn sk em eb inc strm out bc hbc
    have hp0 : p ≠ [] := hp p (List.mem_cons_self _ _)
    have hplen : 1 ≤ p.length := List.length_pos.mpr hp0
    have hflat : ((p :: ps).flatten : Bytes) = p ++ ps.flatten := List.flatten_cons
    match n, hn with
    | n + 1, hn =>
      rw [coLoop]
      rw [if_pos ?hpos]
      case hpos =>
        refine ⟨rfl, ?_⟩
        rw [hbc, hflat]
        simp only [List.length_append]
        push_cast
        omega
      rw [List.cons_append, connReadLine_cons]
      dsimp only
      rw [if_neg ?hneg]
      case hneg =>
        rw [hbc, hflat]
        simp only [List.length_append]
        push_cast
        omega
      rw [ih (fun q hq => hp q (List.mem_cons_of_mem _ hq)) n (by simpa using hn)
        sk em eb inc strm (out ++ p) _ ?hbc2]
      case hbc2 =>
        rw [hbc, hflat]
        simp only [List.length_append]
        push_cast
        omega

theorem c6_success (cnt : Bytes) (pieces : List Bytes)
    (hcnt : nlLine cnt) (hp : ∀ p ∈ pieces, nlLine p)
    (hbc : parseBytecount cnt = some (pieces.flatten.length : Int)) :
    checkoutRun (c6Stream cnt pieces.flatten) = .ok pieces.flatten := by
  obtain ⟨core, rfl, h10⟩ := nlLine_decomp cnt hcnt
  have hpc : parseBytecount (core ++ [10]) =
      if core ≠ [] ∧ core.all isDigitB then some ((digitsToNat core : Nat) : Int)
      else none := by
    rw [parseBytecount]
    simp only [List.dropLast_concat]
  rw [hpc] at hbc
  by_cases hcond : core ≠ [] ∧ core.all isDigitB
  case neg =>
    rw [if_neg hcond] at hbc
    cases hbc
  rw [if_pos hcond] at hbc
  have hN : ((digitsToNat core : Nat) : Int) = (pieces.flatten.length : Int) :=
    Option.some.inj hbc
  have hpnn : ∀ p ∈ pieces, p ≠ [] := fun p hm => (hp p hm).1
  have hsplit : splitKeepNL (c6Stream (core ++ [10]) pieces.flatten) =
      coEntryLine :: coModeLine :: (core ++ [10]) :: (pieces ++ [okLine]) := by
    rw [c6Stream, List.append_assoc, List.append_assoc, List.append_assoc]
    rw [nlLine_split_append _ _ (by decide), nlLine_split_append _ _ (by decide),
      nlLine_split_append _ _ hcnt, split_join_append _ _ hp]
    rw [show splitKeepNL okLine = [okLine] from by decide]
  have hne : c6Stream (core ++ [10]) pieces.flatten ≠ [] := by
    rw [c6Stream]
    simp [okLine, bs]
  have hlast : lastNLIdx (c6Stream (core ++ [10]) pieces.flatten) =
      some ((c6Stream (core ++ [10]) pieces.flatten).length - 1) := by
    rw [c6Stream]
    exact lastNLIdx_append_okLine _
  rw [checkoutRun]
  rw [coLoop_recvAll _ _ hne hlast _ _ hsplit]
  set L := (c6Stream (core ++ [10]) pieces.flatten).length with hL
  have hLge : pieces.flatten.length + 4 ≤ L := by
    rw [hL, c6Stream]
    have h1 : (coEntryLine : Bytes).length = 17 := by decide
    have h2 : (coModeLine : Bytes).length = 5 := by decide
    have h3 : (okLine : Bytes).length = 3 := by decide
    simp only [List.length_append, h1, h2, h3]
    omega
  rw [show L + 2 = (L + 1) + 1 from rfl, coLoop_entry_step, coLoop_mode_step]
  rw [show L = (L - 1) + 1 from by omega]
  rw [coLoop_cnt_step (L - 1) (pieces ++ [okLine]) [] [] core _ hcond.1 hcond.2 hN]
  have hplen : pieces.length < L - 1 := by
    have := length_le_flatten_length pieces hpnn
    omega
  rw [coLoop_data pieces hpnn (L - 1) hplen false false true [] [] [] _ rfl]
  simp

theorem c6_overlong (cnt : Bytes) (pieces : List Bytes) (raw : Bytes)
    (hcnt : nlLine cnt) (hp : ∀ p ∈ pieces, nlLine p)
    (hraw : raw ≠ []) (hraw10 : ∀ c ∈ raw, c ≠ 10)
    (hbc : parseBytecount cnt = some ((pieces.flatten ++ raw).length : Int)) :
    checkoutRun (c6Stream cnt (pieces.flatten ++ raw)) =
      .error (.protocolError "overlong data") := by
  obtain ⟨core, rfl, h10⟩ := nlLine_decomp cnt hcnt
  have hpc : parseBytecount (core ++ [10]) =
      if core ≠ [] ∧ core.all isDigitB then some ((digitsToNat core : Nat) : Int)
      else none := by
    rw [parseBytecount]
    simp only [List.dropLast_concat]
  rw [hpc] at hbc
  by_cases hcond : core ≠ [] ∧ core.all isDigitB
  case neg =>
    rw [if_neg hcond] at hbc
    cases hbc
  rw [if_pos hcond] at hbc
  have hN : ((digitsToNat core : Nat) : Int) = ((pieces.flatten ++ raw).length : Int) :=
    Option.some.inj hbc
  have hpnn : ∀ p ∈ pieces, p ≠ [] := fun p hm => (hp p hm).1
  have hsplit : splitKeepNL (c6Stream (core ++ [10]) (pieces.flatten ++ raw)) =
      coEntryLine :: coModeLine :: (core ++ [10]) :: (pieces ++ [raw ++ okLine]) := by
    rw [c6Stream, List.append_assoc, List.append_assoc, List.append_assoc]
    rw [nlLine_split_append _ _ (by decide), nlLine_split_append _ _ (by decide),
      nlLine_split_append _ _ hcnt]
    rw [List.append_assoc, split_join_append _ _ hp]
    rw [split_noNL_prepend raw okLine okLine [] hraw10 (by decide)]
  have hne : c6Stream (core ++ [10]) (pieces.flatten ++ raw) ≠ [] := by
    rw [c6Stream]
    simp [okLine, bs]
  have hlast : lastNLIdx (c6Stream (core ++ [10]) (pieces.flatten ++ raw)) =
      some ((c6Stream (core ++ [10]) (pieces.flatten ++ raw)).length - 1) := by
    rw [c6Stream]
    exact lastNLIdx_append_okLine _
  rw [checkoutRun]
  rw [coLoop_recvAll _ _ hne hlast _ _ hsplit]
  set L := (c6Stream (core ++ [10]) (pieces.flatten ++ raw)).length with hL
  have hLge : pieces.flatten.length + 4 ≤ L := by
    rw [hL, c6Stream]
    have h1 : (coEntryLine : Bytes).length = 17 := by decide
    have h2 : (coModeLine : Bytes).length = 5 := by decide
    have h3 : (okLine : Bytes).length = 3 := by decide
    simp only [List.length_append, h1, h2, h3]
    omega
  rw [show L + 2 = (L + 1) + 1 from rfl, coLoop_entry_step, coLoop_mode_step]
  rw [show L = (L - 1) + 1 from by omega]
  rw [coLoop_cnt_step (L - 1) (pieces ++ [raw ++ okLine]) [] [] core _ hcond.1 hcond.2 hN]
  have hplen : pieces.length < L - 1 := by
    have := length_le_flatten_length pieces hpnn
    omega
  exact coLoop_data_overlong pieces raw hpnn hraw (L - 1) hplen false false true [] [] [] _ rfl

/-- Claim C6, corrected: the checkout byte-count phase reads whole
protocol lines, not raw byte ranges.  (i) When the file data is a
concatenation of newline-terminated pieces and the byte-count line
declares exactly its length, checkout consumes the data and succeeds with
exactly those bytes.  (ii) When the data additionally carries a trailing
newline-free remainder (still counted by the byte-count line), the line
reader merges the remainder with the closing ok line, the declared count
is exceeded, and checkout fails with the overlong-data protocol error —
it never writes exactly the declared bytes. -/
theorem C6_checkout_bytecount_amended :
    (∀ (cnt : Bytes) (pieces : List Bytes),
        nlLine cnt → (∀ p ∈ pieces, nlLine p) →
        parseBytecount cnt = some (pieces.flatten.length : Int) →
        checkoutRun (c6Stream cnt pieces.flatten) = .ok pieces.flatten) ∧
    (∀ (cnt : Bytes) (pieces : List Bytes) (raw : Bytes),
        nlLine cnt → (∀ p ∈ pieces, nlLine p) →
        raw ≠ [] → (∀ c ∈ raw, c ≠ 10) →
        parseBytecount cnt = some ((pieces.flatten ++ raw).length : Int) →
        checkoutRun (c6Stream cnt (pieces.flatten ++ raw)) =
          .error (.protocolError "overlong data")) :=
  ⟨c6_success, c6_overlong⟩

theorem C6_checkout_bytecount_amended_witness :
    checkoutRun (c6Stream (bs ("2\n")) (bs ("a\n"))) = .ok (bs ("a\n")) ∧
    checkoutRun (c6Stream (bs ("3\n")) (bs ("a\n") ++ bs ("b"))) =
      .error (.protocolError "overlong data") := by
  constructor
  · have h := C6_checkout_bytecount_amended.1 (bs ("2\n")) [bs ("a\n")]
      (by decide) (by decide) (by decide)
    simpa using h
  · have h := C6_checkout_bytecount_amended.2 (bs ("3\n")) [bs ("a\n")] (bs ("b"))
      (by decide) (by decide) (by decide) (by decide) (by decide)
    simpa using h

/-- Claim C1 (the code violates the claim): on a stream holding one RCS
file with revisions 1.2 and 1.1, both revisions are parsed (each heads a
changeset), but the offsets table records only the last-parsed revision
1.1 — the source assigns `self.offsets[path][rev[0]] = off` after the
per-revision loop instead of inside it — so `getlog` retrieves the log of
revision 1.1 and raises KeyError (modelled as none) for revision 1.2. -/
theorem C1_offsets_only_last_revision :
    parseRlog 300 (bs ("/cvsroot")) c1RlogLines = .ok c1State ∧
    (c1State.changesets.map fun c => c.revs.map (·.revnum)) =
      [[bs ("1.2")], [bs ("1.1")]] ∧
    c1State.offsets = [(bs ("mod/a.txt"), [(bs ("1.1"), 172)])] ∧
    getlog c1RlogLines c1State (bs ("mod/a.txt")) (bs ("1.1")) =
      some (bs ("log message one\n")) ∧
    getlog c1RlogLines c1State (bs ("mod/a.txt")) (bs ("1.2")) = none := by
  refine ⟨by decide, by decide, by decide, by decide, by decide⟩

/-- Auxiliary: the key extracted by the dict lookup is one of the stored
keys, and the remaining keys are stored keys. -/
theorem extractEq_mem_sub {fuzz : Int} {a : CSKey} :
    ∀ {s : List CSKey} {c : CSKey} {rest : List CSKey},
      extractEq fuzz a s = some (c, rest) → c ∈ s ∧ ∀ x ∈ rest, x ∈ s := by
  intro s
  induction s with
  | nil => intro c rest h; simp [extractEq] at h
  | cons c0 s0 ih =>
    intro c rest h
    simp only [extractEq] at h
    split_ifs at h with hc
    · cases h
      exact ⟨List.mem_cons_self _ _, fun x hx => List.mem_cons_of_mem _ hx⟩
    · cases he : extractEq fuzz a s0 with
      | none => rw [he] at h; simp at h
      | some p =>
        obtain ⟨c2, rest2⟩ := p
        rw [he] at h
        cases h
        obtain ⟨h1, h2⟩ := ih he
        refine ⟨List.mem_cons_of_mem _ h1, fun x hx => ?_⟩
        rcases List.mem_cons.mp hx with rfl | hx2
        · exact List.mem_cons_self _ _
        · exact List.mem_cons_of_mem _ (h2 x hx2)

/-- Auxiliary: every file revision stored in a changeset after the merge
cascade comes either from the inserted key or from a previously stored
changeset. -/
theorem cascadeAux_revs_sub (fuzz : Int) :
    ∀ (n : Nat) (s : List CSKey) (a : CSKey) (c2 : CSKey),
      c2 ∈ cascadeAux fuzz n s a → ∀ fr ∈ c2.revs,
        fr ∈ a.revs ∨ ∃ c ∈ s, fr ∈ c.revs := by
  intro n
  induction n with
  | zero =>
    intro s a c2 hc2 fr hfr
    rcases List.mem_cons.mp hc2 with rfl | hs
    · exact .inl hfr
    · exact .inr ⟨c2, hs, hfr⟩
  | succ n ih =>
    intro s a c2 hc2 fr hfr
    rw [cascadeAux] at hc2
    cases he : extractEq fuzz a s with
    | none =>
      rw [he] at hc2
      rcases List.mem_cons.mp hc2 with rfl | hs
      · exact .inl hfr
      · exact .inr ⟨c2, hs, hfr⟩
    | some p =>
      obtain ⟨c, rest⟩ := p
      rw [he] at hc2
      rcases ih rest (csMerge c a) c2 hc2 fr hfr with hm | ⟨c3, hc3, hfr3⟩
      · rcases List.mem_append.mp hm with h1 | h2
        · exact .inr ⟨c, (extractEq_mem_sub he).1, h1⟩
        · exact .inl h2
      · exact .inr ⟨c3, (extractEq_mem_sub he).2 c3 hc3, hfr3⟩

/-- Auxiliary: the same, stated for one clusterer step. -/
theorem clusterStep_revs_sub (fuzz : Int) (s : List CSKey) (x : ClusterRev)
    (c2 : CSKey) (hc2 : c2 ∈ clusterStep fuzz s x) :
    ∀ fr ∈ c2.revs, fr ∈ (newCSKey x).revs ∨ ∃ c ∈ s, fr ∈ c.revs :=
  fun fr hfr => cascadeAux_revs_sub fuzz s.length s (newCSKey x) c2 hc2 fr hfr

/-- Auxiliary: a revision that survives the verdict of the per-revision
loop is a trunk revision (dotted length 2) or a vendor revision (dotted
length 4 under 1.1.1). -/
theorem revVerdict_true_shape (novendor haveInit : Bool) (lastVendor : Option Bytes)
    (r : List Bytes) (state : Bytes)
    (h : (revVerdict novendor haveInit lastVendor r state).2 = true) :
    r.length = 2 ∨ (r.length = 4 ∧ r.take 3 = [bs ("1"), bs ("1"), bs ("1")]) := by
  by_cases h1 : r = [bs ("1"), bs ("1"), bs ("1"), bs ("1")]
  · right
    rw [h1]
    exact ⟨rfl, rfl⟩
  · by_cases h2 : r.length = 4 ∧ r.take 3 = [bs ("1"), bs ("1"), bs ("1")]
    · right; exact h2
    · by_cases h3 : r.length = 2
      · left; exact h3
      · exfalso
        simp only [revVerdict, if_neg h1, if_neg h2, if_neg h3] at h
        simp at h

/-- Auxiliary: the per-revision loop of `_process_rlog_entry` preserves the
trunk-or-vendor invariant of the changeset table. -/
theorem processRevLoop_trunkOnly (fuzz : Int) (path : Bytes)
    (branches : List (Bytes × Bytes)) (rtags : List (Bytes × List Bytes))
    (logmsgs : List (Bytes × Bytes)) :
    ∀ (items : List (Bytes × RevTuple)) (novendor haveInit : Bool)
      (lastVendor : Option Bytes) (st st2 : RlogState),
      stateTrunkOnly st →
      processRevLoop fuzz path branches rtags logmsgs items novendor haveInit
        lastVendor st = .ok st2 →
      stateTrunkOnly st2 := by
  intro items
  induction items with
  | nil =>
    intro _ _ _ st st2 hst h
    simp only [processRevLoop] at h
    cases h
    exact hst
  | cons kv rest ih =>
    obtain ⟨k, v⟩ := kv
    intro novendor haveInit lastVendor st st2 hst h
    simp only [processRevLoop] at h
    by_cases hv : (revVerdict novendor haveInit lastVendor (splitDots k) v.state).2 = false
    · rw [if_pos hv] at h
      exact ih _ _ _ _ _ hst h
    · rw [if_neg hv] at h
      cases hb : aget branches (joinDots (splitDots k).dropLast) with
      | none => rw [hb] at h; cases h
      | some brname =>
        rw [hb] at h
        cases hl : aget logmsgs k with
        | none => rw [hl] at h; cases h
        | some lm =>
          rw [hl] at h
          refine ih _ _ _ _ _ ?_ h
          intro c hc fr hfr
          rcases clusterStep_revs_sub fuzz st.changesets
              ⟨brname, v.author, v.date, lm, v.commitid, path, k, v.state⟩ c hc fr hfr with
            hnew | ⟨c3, hc3, hfr3⟩
          · have hk : fr.revnum = k := by
              simp only [newCSKey, List.mem_singleton] at hnew
              rw [hnew]
            rw [trunkOrVendor, hk]
            exact revVerdict_true_shape novendor haveInit lastVendor (splitDots k) v.state
              (Bool.not_eq_false _ |>.mp hv)
          · exact hst c3 hc3 fr hfr3

/-- Claim C8: a file revision processed by the rlog clusterer is added to a
changeset only if it is a trunk revision (HEAD: dotted number of length 2)
or a vendor revision (VENDOR: dotted number of length 4 under 1.1.1); every
revision on any other branch is skipped, so whenever `_process_rlog_entry`
succeeds starting from a state whose changesets contain only trunk and
vendor revisions, the resulting changesets still contain only trunk and
vendor revisions. -/
theorem C8_trunk_vendor_only (fuzz : Int) (st : RlogState) (path : Bytes)
    (taginfo : List (Bytes × Bytes)) (revisions : List (Bytes × RevTuple))
    (logmsgs : List (Bytes × Bytes)) (st2 : RlogState)
    (hst : stateTrunkOnly st)
    (h : processRlogEntry fuzz st path taginfo revisions logmsgs = .ok st2) :
    stateTrunkOnly st2 := by
  unfold processRlogEntry at h
  cases hs : scanTagsLoop taginfo
      [(bs ("1"), bs ("HEAD")), (bs ("1.1.1"), bs ("VENDOR"))] [] with
  | error e => rw [hs] at h; cases h
  | ok p =>
    obtain ⟨branches, rtags⟩ := p
    rw [hs] at h
    exact processRevLoop_trunkOnly fuzz path branches rtags logmsgs _ _ _ _ _ _ hst h

/-- Witness for C8: processing one trunk revision 1.1 and one branch
revision 1.2.2.1 from the empty state succeeds; the branch revision is
skipped and the resulting single changeset holds only the trunk
revision. -/
theorem C8_trunk_vendor_only_witness :
    stateTrunkOnly
      ⟨[⟨bs ("HEAD"), bs ("bob"), bs ("m"), none, 7, 7,
          [⟨bs ("mod/f"), bs ("1.1"), bs ("Exp"), 0⟩]⟩], [], []⟩ :=
  C8_trunk_vendor_only 300 ⟨[], [], []⟩ (bs ("mod/f")) []
    [(bs ("1.1"), ⟨bs ("1.1"), 7, bs ("bob"), bs ("Exp"), none⟩),
     (bs ("1.2.2.1"), ⟨bs ("1.2.2.1"), 9, bs ("bob"), bs ("Exp"), none⟩)]
    [(bs ("1.1"), bs ("m")), (bs ("1.2.2.1"), bs ("m"))] _ (by decide) (by decide)

/-- Auxiliary: the misspelled `epxect_error` field is assigned but never
read, so the result of the response loop does not depend on it. -/
theorem rlogRespLoop_epxect_irrel (l : List Bytes) :
    ∀ e b1 b2 o, rlogRespLoop l ⟨e, b1, o⟩ = rlogRespLoop l ⟨e, b2, o⟩ := by
  induction l with
  | nil => intro e b1 b2 o; rfl
  | cons line rest ih =>
    intro e b1 b2 o
    simp only [rlogRespLoop]
    split_ifs <;> first | rfl | apply ih

set_option maxHeartbeats 1000000 in
/-- Auxiliary: a line starting with "error  " is skipped by the response
loop and the remaining lines are processed as if it were absent. -/
theorem rlogRespLoop_err_skip (err : Bytes) (he : err.take 7 = bs ("error  ")) :
    ∀ pre post b1 b2 o, rlogRespLoop (pre ++ err :: post) ⟨false, b1, o⟩ =
      rlogRespLoop (pre ++ post) ⟨false, b2, o⟩ := by
  have hb : bs ("error  ") = [101, 114, 114, 111, 114, 32, 32] := by decide
  intro pre
  induction pre with
  | nil =>
    intro post b1 b2 o
    obtain ⟨t, rfl⟩ : ∃ t, err = [101, 114, 114, 111, 114, 32, 32] ++ t :=
      ⟨err.drop 7, by rw [← hb, ← he]; exact (List.take_append_drop 7 err).symm⟩
    have hok : bs ("ok\n") = [111, 107, 10] := by decide
    have hmnl : bs ("M \n") = [77, 32, 10] := by decide
    have hm2 : bs ("M ") = [77, 32] := by decide
    have hmtt : bs ("MT text ") = [77, 84, 32, 116, 101, 120, 116, 32] := by decide
    have hmtd : bs ("MT date ") = [77, 84, 32, 100, 97, 116, 101, 32] := by decide
    have hmtn : bs ("MT newline") = [77, 84, 32, 110, 101, 119, 108, 105, 110, 101] := by
      decide
    rw [List.nil_append, rlogRespLoop]
    rw [if_neg (by simp), if_neg (by rw [hok]; simp), if_neg (by rw [hmnl]; simp),
        if_neg (by rw [hm2]; simp), if_neg (by rw [hmtt]; simp),
        if_neg (by rw [hmtd]; simp), if_neg (by rw [hmtn]; simp),
        if_pos (by rw [hb]; simp)]
    exact rlogRespLoop_epxect_irrel post false true b2 o
  | cons line pre ih =>
    intro post b1 b2 o
    simp only [List.cons_append, rlogRespLoop]
    split_ifs <;> first | rfl | apply ih

/-- Claim C10: when the server rlog response stream contains a line beginning
with "error  ", `fetch_rlog` does not fail: the line is skipped, all
subsequent lines are processed as ordinary output (the loop-carried
expect-error flag is never set because the misspelled `epxect_error` local is
assigned instead), and the rlog output accumulated is the same as if the
error line had not been there. -/
theorem C10_rlog_error_line_skipped (pre post : List Bytes) (err : Bytes)
    (he : err.take 7 = bs ("error  ")) :
    parseRlogResponse (pre ++ err :: post) = parseRlogResponse (pre ++ post) :=
  rlogRespLoop_err_skip err he pre post false false []

/-- Witness for C10 at a concrete response: an "error  " line between two
payload lines is ignored. -/
theorem C10_rlog_error_line_skipped_witness :
    (bs ("error  oops\n")).take 7 = bs ("error  ") ∧
    parseRlogResponse
        ([bs ("M hello\n")] ++ bs ("error  oops\n") :: [bs ("M world\n"), bs ("ok\n")]) =
      parseRlogResponse ([bs ("M hello\n")] ++ [bs ("M world\n"), bs ("ok\n")]) :=
  ⟨by decide,
   C10_rlog_error_line_skipped [bs ("M hello\n")] [bs ("M world\n"), bs ("ok\n")]
     (bs ("error  oops\n")) (by decide)⟩

/-- Claim C7 (the code violates the claim): the request sequence written by
`checkout` contains `Argument -kb` for every call; the source has no
expand_keywords parameter.  The request coincides with the spec request for
expand_keywords = false and differs from the spec request for
expand_keywords = true. -/
theorem C7_checkout_always_sends_kb :
    (∀ module rev path, (bs ("Argument -kb\n")) <:+:
        (bs (checkoutRequest module rev path))) ∧
    (∀ module rev path,
        checkoutRequest module rev path = checkoutRequestSpec module rev path false) ∧
    (∀ module rev path,
        checkoutRequest module rev path ≠ checkoutRequestSpec module rev path true) := by
  refine ⟨fun module rev path => ?_, fun module rev path => rfl,
          fun module rev path => ?_⟩
  · refine ⟨bs ("Directory " ++ module ++ "\n" ++ module ++ "\n" ++
        "Global_option -q\n" ++ "Argument -r" ++ rev ++ "\n"),
      bs ("Argument --\n" ++ "Argument " ++ path ++ "\n" ++ "co \n"), ?_⟩
    simp only [checkoutRequest, bs, String.toList, String.data_append, List.map_append,
      List.append_assoc]
  · intro h
    have hlen := congrArg String.length h
    have h13 : ("Argument -kb\n").length = 13 := rfl
    have h0 : ("" : String).length = 0 := rfl
    simp only [checkoutRequest, checkoutRequestSpec, if_true, String.length_append,
      h13, h0] at hlen
    omega

/-- Auxiliary: `fetch_data` turns an exception raised by the changeset
generator into the same "no more data" result as an exhausted generator, so
the remainder of the visit proceeds identically. -/
theorem visitLoop_error_stop :
    ∀ (ds : List ChangesetData) (f1 f2 pc ps pd : Nat) (pr : List Nat)
      (lr : Option Nat) (e : String) (rest : List (Except String ChangesetData)),
      ds.length < f1 → ds.length < f2 →
      visitLoop f1 ⟨pc, ps, pd, pr, lr, ds.map .ok ++ .error e :: rest⟩ =
        visitLoop f2 ⟨pc, ps, pd, pr, lr, ds.map .ok⟩ := by
  intro ds
  induction ds with
  | nil =>
    intro f1 f2 pc ps pd pr lr e rest h1 h2
    match f1, h1 with
    | f1 + 1, _ =>
      match f2, h2 with
      | f2 + 1, _ =>
        simp only [List.map_nil, List.nil_append, visitLoop, fetchData]
        cases lr <;> rfl
  | cons d ds ih =>
    intro f1 f2 pc ps pd pr lr e rest h1 h2
    match f1, h1 with
    | f1 + 1, h1 =>
      match f2, h2 with
      | f2 + 1, h2 =>
        simp only [List.map_cons, List.cons_append, visitLoop, fetchData, storeData]
        rw [ih f1 f2 0 0 0 [] (some d.revId) e rest
          (by simpa using h1) (by simpa using h2)]

/-- Counterexample to claim C3 as stated: a visit whose second changeset
production raises an error terminates exactly as the visit whose history was
exhausted after the first changeset, and it ends without error. -/
theorem C3_error_ends_visit_normally_cex :
    runVisit [.ok ⟨5, 0, 1, 1⟩, .error "RCS parse error"] =
        runVisit [.ok ⟨5, 0, 1, 1⟩] ∧
    (runVisit [.ok ⟨5, 0, 1, 1⟩, .error "RCS parse error"]).isOk = true := by
  constructor
  · exact visitLoop_error_stop [⟨5, 0, 1, 1⟩] 3 2 0 0 0 [] none "RCS parse error" []
      (by decide) (by decide)
  · decide

/-- Claim C3 amended: if producing the next changeset raises any error,
`fetch_data` logs the exception and returns False; the visit then terminates
exactly as if the history had been exhausted at that point, handing the same
events to the sink; no structured error aborts the visit. -/
theorem C3_exception_swallowed (ds : List ChangesetData) (e : String)
    (rest : List (Except String ChangesetData)) :
    runVisit (ds.map .ok ++ .error e :: rest) = runVisit (ds.map .ok) := by
  unfold runVisit
  exact visitLoop_error_stop ds _ _ 0 0 0 [] none e rest
    (by simp; omega) (by simp)

/-- Claim C2 (the code violates the claim): in a visit that processes two
changesets, `store_data` hands a snapshot to the sink on every call: three
snapshot-add events reach the sink (targets 1, 2, 2), not exactly one; only
the last of them names HEAD with the last commit as target. -/
theorem C2_snapshot_every_store_data :
    snapshotCount (runVisit [.ok ⟨5, 0, 1, 1⟩, .ok ⟨3, 0, 2, 2⟩]) = 3 ∧
    snapshotTargets (runVisit [.ok ⟨5, 0, 1, 1⟩, .ok ⟨3, 0, 2, 2⟩]) = [1, 2, 2] ∧
    (runVisit [.ok ⟨5, 0, 1, 1⟩, .ok ⟨3, 0, 2, 2⟩]).isOk = true := by
  refine ⟨by decide, by decide, by decide⟩

/-- Claim C9: for every date parsed from an rlog stream with year Y: if
Y ≥ 1970 the year is used unchanged; if Y < 1970 (equivalently Y − 1900 < 70)
the year is shifted forward by exactly 100 years; and if after this shift the
year is still below 1970, parsing fails with an invalid-year error instead of
returning a timestamp. -/
theorem C9_rlog_year_shift :
    (∀ y : Int, 1970 ≤ y → fixYear y = .ok y) ∧
    (∀ y : Int, y < 1970 → y - 1900 < 70 → 1970 ≤ y + 100 → fixYear y = .ok (y + 100)) ∧
    (∀ y : Int, y < 1970 → y + 100 < 1970 → fixYear y = .error "invalid year") := by
  refine ⟨fun y h => ?_, fun y h1 h2 h3 => ?_, fun y h1 h2 => ?_⟩
  · rw [fixYear, if_neg (by omega)]
  · rw [fixYear, if_pos h1]
    simp only [if_pos h2]
    rw [if_neg (by omega)]
  · rw [fixYear, if_pos h1]
    simp only [if_pos (show y - 1900 < 70 by omega)]
    rw [if_pos h2]

/-- Witness for C9 at concrete years: 2005 is kept, 1969 becomes 2069, and
1850 (1950 after the shift) is rejected as an invalid year. -/
theorem C9_rlog_year_shift_witness :
    fixYear 2005 = .ok 2005 ∧ fixYear 1969 = .ok 2069 ∧
    fixYear 1850 = .error "invalid year" :=
  ⟨C9_rlog_year_shift.1 2005 (by norm_num),
   C9_rlog_year_shift.2.1 1969 (by norm_num) (by norm_num) (by norm_num),
   C9_rlog_year_shift.2.2 1850 (by norm_num) (by norm_num)⟩

theorem csEq_true_iff (fuzz : Int) (a b : CSKey) :
    csEq fuzz a b = true ↔
      (a.branch = b.branch ∧ a.author = b.author ∧ a.log = b.log ∧
       a.commitid = b.commitid) ∧
      b.min_time - a.max_time ≤ fuzz ∧ a.min_time - b.max_time ≤ fuzz := by
  simp [csEq, csSameFields, Bool.and_eq_true, decide_eq_true_eq, and_assoc]

theorem csEq_comm (fuzz : Int) (a b : CSKey) :
    csEq fuzz a b = csEq fuzz b a := by
  by_cases h : csEq fuzz a b = true
  · have h2 := (csEq_true_iff fuzz a b).mp h
    have h3 : csEq fuzz b a = true := (csEq_true_iff fuzz b a).mpr
      ⟨⟨h2.1.1.symm, h2.1.2.1.symm, h2.1.2.2.1.symm, h2.1.2.2.2.symm⟩,
       h2.2.2, h2.2.1⟩
    rw [h, h3]
  · have h2 : csEq fuzz b a ≠ true := by
      intro hba
      have h3 := (csEq_true_iff fuzz b a).mp hba
      exact h ((csEq_true_iff fuzz a b).mpr
        ⟨⟨h3.1.1.symm, h3.1.2.1.symm, h3.1.2.2.1.symm, h3.1.2.2.2.symm⟩,
         h3.2.2, h3.2.1⟩)
    rw [Bool.eq_false_iff.mpr h, Bool.eq_false_iff.mpr h2]

/- extractEq lemmas -/

theorem extractEq_none_iff (fuzz : Int) (a : CSKey) :
    ∀ (s : List CSKey), extractEq fuzz a s = none ↔ ∀ c ∈ s, csEq fuzz c a = false := by
  intro s
  induction s with
  | nil => simp [extractEq]
  | cons c rest ih =>
    rw [extractEq]
    by_cases h : csEq fuzz c a = true
    · rw [if_pos h]
      constructor
      · intro hx
        cases hx
      · intro hall
        exact absurd h (by simp [hall c (List.mem_cons_self _ _)])
    · rw [if_neg h]
      rw [Bool.not_eq_true] at h
      cases hrec : extractEq fuzz a rest with
      | some p =>
        obtain ⟨c2, r2⟩ := p
        dsimp only
        constructor
        · intro hx
          cases hx
        · intro hall
          have h0 : extractEq fuzz a rest = none :=
            ih.mpr (fun d hd => hall d (List.mem_cons_of_mem _ hd))
          rw [h0] at hrec
          cases hrec
      | none =>
        dsimp only
        constructor
        · intro _ d hd
          rcases List.mem_cons.mp hd with rfl | hd2
          · exact h
          · exact ih.mp hrec d hd2
        · intro _
          rfl

theorem extractEq_some_split (fuzz : Int) (a : CSKey) :
    ∀ (s : List CSKey) (c : CSKey) (rest : List CSKey),
      extractEq fuzz a s = some (c, rest) →
      csEq fuzz c a = true ∧
      ∃ pre post, s = pre ++ c :: post ∧ rest = pre ++ post := by
  intro s
  induction s with
  | nil => intro c rest h; cases h
  | cons d ds ih =>
    intro c rest h
    rw [extractEq] at h
    by_cases hd : csEq fuzz d a = true
    · rw [if_pos hd] at h
      injection h with h
      injection h with h1 h2
      subst h1; subst h2
      exact ⟨hd, [], ds, rfl, rfl⟩
    · rw [if_neg hd] at h
      cases hrec : extractEq fuzz a ds with
      | none => rw [hrec] at h; cases h
      | some p =>
        rw [hrec] at h
        obtain ⟨c2, rest2⟩ := p
        injection h with h
        injection h with h1 h2
        subst h1; subst h2
        obtain ⟨heq, pre, post, hs, hr⟩ := ih c2 rest2 hrec
        exact ⟨heq, d :: pre, post, by rw [hs]; rfl, by rw [hr]; rfl⟩

theorem noCut_single (fuzz : Int) (x : ClusterRev) : NoCut fuzz [x] := by
  intro s hx hy
  obtain ⟨a, ha, hale⟩ := hx
  obtain ⟨b, hb, hblt⟩ := hy
  simp only [List.mem_singleton] at ha hb
  subst ha; subst hb
  omega

theorem matches_single (fuzz : Int) (x : ClusterRev) :
    Matches fuzz (newCSKey x) [x] := by
  refine ⟨by simp, ?_, ?_, ?_, ?_, ?_, ?_, ?_, ?_, ?_, noCut_single fuzz x⟩ <;>
    simp [newCSKey, frOf]

theorem noCut_union (fuzz : Int) {c a : CSKey} {gc ga : List ClusterRev}
    (hc : Matches fuzz c gc) (ha : Matches fuzz a ga)
    (h1 : a.min_time - c.max_time ≤ fuzz) (h2 : c.min_time - a.max_time ≤ fuzz) :
    NoCut fuzz (gc ++ ga) := by
  intro s hxs hys
  obtain ⟨x, hx, hxle⟩ := hxs
  obtain ⟨y, hy, hylt⟩ := hys
  by_cases hcb : (∃ u ∈ gc, u.time ≤ s) ∧ (∃ v ∈ gc, s < v.time)
  · obtain ⟨u, hu, v, hv, huv⟩ := hc.nocut s hcb.1 hcb.2
    exact ⟨u, List.mem_append_left _ hu, v, List.mem_append_left _ hv, huv⟩
  by_cases hab : (∃ u ∈ ga, u.time ≤ s) ∧ (∃ v ∈ ga, s < v.time)
  · obtain ⟨u, hu, v, hv, huv⟩ := ha.nocut s hab.1 hab.2
    exact ⟨u, List.mem_append_right _ hu, v, List.mem_append_right _ hv, huv⟩
  by_cases hc1 : ∃ u ∈ gc, u.time ≤ s
  · have hc2 : ¬ ∃ v ∈ gc, s < v.time := fun h => hcb ⟨hc1, h⟩
    have ha2 : ∃ v ∈ ga, s < v.time := by
      rcases List.mem_append.mp hy with hyc | hya
      · exact absurd ⟨y, hyc, hylt⟩ hc2
      · exact ⟨y, hya, hylt⟩
    have ha1 : ¬ ∃ u ∈ ga, u.time ≤ s := fun h => hab ⟨h, ha2⟩
    push_neg at hc2 ha1
    obtain ⟨u, hu, huT⟩ := hc.max_mem
    obtain ⟨v, hv, hvT⟩ := ha.min_mem
    refine ⟨u, List.mem_append_left _ hu, v, List.mem_append_right _ hv, ?_, ?_, ?_⟩
    · exact hc2 u hu
    · exact ha1 v hv
    · rw [huT, hvT]; omega
  · have hx2 : ∃ u ∈ ga, u.time ≤ s := by
      rcases List.mem_append.mp hx with hxc | hxa
      · exact absurd ⟨x, hxc, hxle⟩ hc1
      · exact ⟨x, hxa, hxle⟩
    have ha2 : ¬ ∃ v ∈ ga, s < v.time := fun h => hab ⟨hx2, h⟩
    have hy2 : ∃ v ∈ gc, s < v.time := by
      rcases List.mem_append.mp hy with hyc | hya
      · exact ⟨y, hyc, hylt⟩
      · exact absurd ⟨y, hya, hylt⟩ ha2
    push_neg at hc1 ha2
    obtain ⟨u, hu, huT⟩ := ha.max_mem
    obtain ⟨v, hv, hvT⟩ := hc.min_mem
    refine ⟨u, List.mem_append_right _ hu, v, List.mem_append_left _ hv, ?_, ?_, ?_⟩
    · exact ha2 u hu
    · exact hc1 v hv
    · rw [huT, hvT]; omega

theorem matches_merge (fuzz : Int) {c a : CSKey} {gc ga : List ClusterRev}
    (hc : Matches fuzz c gc) (ha : Matches fuzz a ga)
    (heq : csEq fuzz c a = true) : Matches fuzz (csMerge c a) (gc ++ ga) := by
  obtain ⟨⟨hb, hau, hl, hcid⟩, ht1, ht2⟩ := (csEq_true_iff fuzz c a).mp heq
  refine ⟨?_, ?_, ?_, ?_, ?_, ?_, ?_, ?_, ?_, ?_, noCut_union fuzz hc ha ht1 ht2⟩
  · simp [hc.nonempty]
  · intro x hx
    rcases List.mem_append.mp hx with h | h
    · exact hc.branch x h
    · rw [ha.branch x h, csMerge]; exact hb.symm
  · intro x hx
    rcases List.mem_append.mp hx with h | h
    · exact hc.author x h
    · rw [ha.author x h, csMerge]; exact hau.symm
  · intro x hx
    rcases List.mem_append.mp hx with h | h
    · exact hc.log x h
    · rw [ha.log x h, csMerge]; exact hl.symm
  · intro x hx
    rcases List.mem_append.mp hx with h | h
    · exact hc.commitid x h
    · rw [ha.commitid x h, csMerge]; exact hcid.symm
  · rcases le_total c.min_time a.min_time with h | h
    · obtain ⟨x, hx, hxT⟩ := hc.min_mem
      exact ⟨x, List.mem_append_left _ hx, by rw [hxT]; simp [csMerge, min_eq_left h]⟩
    · obtain ⟨x, hx, hxT⟩ := ha.min_mem
      exact ⟨x, List.mem_append_right _ hx, by rw [hxT]; simp [csMerge, min_eq_right h]⟩
  · rcases le_total c.max_time a.max_time with h | h
    · obtain ⟨x, hx, hxT⟩ := ha.max_mem
      exact ⟨x, List.mem_append_right _ hx, by rw [hxT]; simp [csMerge, max_eq_right h]⟩
    · obtain ⟨x, hx, hxT⟩ := hc.max_mem
      exact ⟨x, List.mem_append_left _ hx, by rw [hxT]; simp [csMerge, max_eq_left h]⟩
  · intro x hx
    rcases List.mem_append.mp hx with h | h
    · calc (csMerge c a).min_time ≤ c.min_time := min_le_left _ _
        _ ≤ x.time := hc.min_le x h
    · calc (csMerge c a).min_time ≤ a.min_time := min_le_right _ _
        _ ≤ x.time := ha.min_le x h
  · intro x hx
    rcases List.mem_append.mp hx with h | h
    · calc x.time ≤ c.max_time := hc.le_max x h
        _ ≤ (csMerge c a).max_time := le_max_left _ _
    · calc x.time ≤ a.max_time := ha.le_max x h
        _ ≤ (csMerge c a).max_time := le_max_right _ _
  · show ((c.revs ++ a.revs : List FileRev) : Multiset FileRev) = _
    rw [List.map_append]
    rw [← Multiset.coe_add, ← Multiset.coe_add, hc.revs_eq, ha.revs_eq]

theorem forall2_decomp {α β : Type} {R : α → β → Prop} :
    ∀ (pre : List α) (c : α) (post : List α) (G : List β),
      List.Forall₂ R (pre ++ c :: post) G →
      ∃ A g B, G = A ++ g :: B ∧ List.Forall₂ R pre A ∧ R c g ∧
        List.Forall₂ R post B := by
  intro pre
  induction pre with
  | nil =>
    intro c post G h
    rw [List.nil_append] at h
    cases h with
    | cons hcg htail => exact ⟨[], _, _, rfl, List.Forall₂.nil, hcg, htail⟩
  | cons d pre ih =>
    intro c post G h
    rw [List.cons_append] at h
    cases h with
    | cons hdg htail =>
      obtain ⟨A, g, B, rfl, hA, hg, hB⟩ := ih c post _ htail
      exact ⟨_ :: A, g, B, rfl, List.Forall₂.cons hdg hA, hg, hB⟩

theorem cascade_rep (fuzz : Int) :
    ∀ (fuel : Nat) (s : List CSKey) (G : List (List ClusterRev)) (a : CSKey)
      (ga : List ClusterRev),
      s.length ≤ fuel →
      List.Forall₂ (Matches fuzz) s G →
      s.Pairwise (SepK fuzz) →
      Matches fuzz a ga →
      ∃ G2, List.Forall₂ (Matches fuzz) (cascadeAux fuzz fuel s a) G2 ∧
        (cascadeAux fuzz fuel s a).Pairwise (SepK fuzz) ∧
        ((G2.flatten : List ClusterRev) : Multiset ClusterRev) =
          (ga : Multiset ClusterRev) +
            ((G.flatten : List ClusterRev) : Multiset ClusterRev) := by
  intro fuel
  induction fuel with
  | zero =>
    intro s G a ga hlen hF hP ha
    have hs : s = [] := List.length_eq_zero.mp (Nat.le_zero.mp hlen)
    subst hs
    have hG : G = [] := List.forall₂_nil_left_iff.mp hF
    subst hG
    refine ⟨[ga], ?_, ?_, ?_⟩
    · exact List.Forall₂.cons ha List.Forall₂.nil
    · exact List.pairwise_singleton _ _
    · simp
  | succ n ih =>
    intro s G a ga hlen hF hP ha
    rw [cascadeAux]
    cases hex : extractEq fuzz a s with
    | none =>
      dsimp only
      refine ⟨ga :: G, List.Forall₂.cons ha hF, ?_, ?_⟩
      · rw [List.pairwise_cons]
        refine ⟨?_, hP⟩
        intro c hcs
        have h1 := ((extractEq_none_iff fuzz a s).mp hex) c hcs
        show csEq fuzz a c = false
        rw [csEq_comm]
        exact h1
      · simp [← Multiset.coe_add]
    | some p =>
      obtain ⟨c, rest⟩ := p
      dsimp only
      obtain ⟨heq, pre, post, rfl, hr⟩ := extractEq_some_split fuzz a _ c rest hex
      subst hr
      obtain ⟨A, gc, B, rfl, hA, hcg, hB⟩ := forall2_decomp pre c post G hF
      have hFrest : List.Forall₂ (Matches fuzz) (pre ++ post) (A ++ B) :=
        List.rel_append hA hB
      have hPrest : (pre ++ post).Pairwise (SepK fuzz) := by
        refine hP.sublist ?_
        exact (List.sublist_cons_self c post).append_left pre
      have hlen2 : (pre ++ post).length ≤ n := by
        simp only [List.length_append, List.length_cons] at hlen ⊢
        omega
      have hm := matches_merge fuzz hcg ha heq
      obtain ⟨G2, hF2, hP2, hfl⟩ := ih (pre ++ post) (A ++ B) (csMerge c a)
        (gc ++ ga) hlen2 hFrest hPrest hm
      refine ⟨G2, hF2, hP2, ?_⟩
      rw [hfl]
      simp only [List.flatten_append, List.flatten_cons, ← Multiset.coe_add]
      abel

theorem rep_step (fuzz : Int) {m : Multiset ClusterRev} {s : List CSKey}
    (h : RepM fuzz m s) (x : ClusterRev) :
    RepM fuzz (m + {x}) (clusterStep fuzz s x) := by
  obtain ⟨G, hF, hm, hP⟩ := h
  obtain ⟨G2, hF2, hP2, hfl⟩ := cascade_rep fuzz s.length s G (newCSKey x) [x]
    le_rfl hF hP (matches_single fuzz x)
  refine ⟨G2, hF2, ?_, hP2⟩
  rw [hfl, hm]
  simp [add_comm]

theorem rep_foldl (fuzz : Int) :
    ∀ (l : List ClusterRev) (s : List CSKey) (m : Multiset ClusterRev),
      RepM fuzz m s →
      RepM fuzz (m + (l : Multiset ClusterRev)) (l.foldl (clusterStep fuzz) s) := by
  intro l
  induction l with
  | nil =>
    intro s m h
    simpa using h
  | cons x xs ih =>
    intro s m h
    have h3 := ih _ _ (rep_step fuzz h x)
    have hmx : m + ((x :: xs : List ClusterRev) : Multiset ClusterRev) =
        m + {x} + (xs : Multiset ClusterRev) := by
      have hx : ((x :: xs : List ClusterRev) : Multiset ClusterRev) =
          {x} + (xs : Multiset ClusterRev) := by
        rw [← Multiset.cons_coe, ← Multiset.singleton_add]
      rw [hx, add_assoc]
    rw [List.foldl_cons, hmx]
    exact h3

theorem rep_clusterAll (fuzz : Int) (l : List ClusterRev) :
    RepM fuzz (l : Multiset ClusterRev) (clusterAll fuzz l) := by
  have h0 : RepM fuzz 0 [] := ⟨[], List.Forall₂.nil, by simp, List.Pairwise.nil⟩
  have h := rep_foldl fuzz l [] 0 h0
  simpa [clusterAll] using h

theorem forall2_mem_right {α β : Type} {R : α → β → Prop} :
    ∀ {s : List α} {G : List β}, List.Forall₂ R s G → ∀ g ∈ G, ∃ c ∈ s, R c g := by
  intro s G h
  induction h with
  | nil => intro g hg; cases hg
  | cons hcg htail ih =>
    intro g hg
    rcases List.mem_cons.mp hg with rfl | hg2
    · exact ⟨_, List.mem_cons_self _ _, hcg⟩
    · obtain ⟨c, hc, hR⟩ := ih g hg2
      exact ⟨c, List.mem_cons_of_mem _ hc, hR⟩

theorem forall2_decomp_right {α β : Type} {R : α → β → Prop} :
    ∀ (A : List β) (g : β) (B : List β) (s : List α),
      List.Forall₂ R s (A ++ g :: B) →
      ∃ A2 c B2, s = A2 ++ c :: B2 ∧ List.Forall₂ R A2 A ∧ R c g ∧
        List.Forall₂ R B2 B := by
  intro A
  induction A with
  | nil =>
    intro g B s h
    rw [List.nil_append] at h
    cases h with
    | cons hcg htail => exact ⟨[], _, _, rfl, List.Forall₂.nil, hcg, htail⟩
  | cons d A ih =>
    intro g B s h
    rw [List.cons_append] at h
    cases h with
    | cons hdg htail =>
      obtain ⟨A2, c, B2, rfl, hA, hg, hB⟩ := ih g B _ htail
      exact ⟨_ :: A2, c, B2, rfl, List.Forall₂.cons hdg hA, hg, hB⟩

theorem csEq_of_members (fuzz : Int) {c d : CSKey} {gc gd : List ClusterRev}
    (hc : Matches fuzz c gc) (hd : Matches fuzz d gd)
    {u v : ClusterRev} (hu : u ∈ gc) (hv : v ∈ gd)
    (hb : u.branch = v.branch) (hau : u.author = v.author) (hl : u.log = v.log)
    (hcid : u.commitid = v.commitid)
    (ht1 : u.time - v.time ≤ fuzz) (ht2 : v.time - u.time ≤ fuzz) :
    csEq fuzz c d = true := by
  refine (csEq_true_iff fuzz c d).mpr ⟨⟨?_, ?_, ?_, ?_⟩, ?_, ?_⟩
  · rw [← hc.branch u hu, ← hd.branch v hv]; exact hb
  · rw [← hc.author u hu, ← hd.author v hv]; exact hau
  · rw [← hc.log u hu, ← hd.log v hv]; exact hl
  · rw [← hc.commitid u hu, ← hd.commitid v hv]; exact hcid
  · have h1 := hd.min_le v hv
    have h2 := hc.le_max u hu
    omega
  · have h1 := hc.min_le u hu
    have h2 := hd.le_max v hv
    omega

theorem mem_block_of_close (fuzz : Int)
    {Ak Bk : List CSKey} {ck : CSKey} {A B : List (List ClusterRev)}
    {g : List ClusterRev}
    (hFA : List.Forall₂ (Matches fuzz) Ak A) (hck : Matches fuzz ck g)
    (hFB : List.Forall₂ (Matches fuzz) Bk B)
    (hP : (Ak ++ ck :: Bk).Pairwise (SepK fuzz))
    {u v : ClusterRev} (hu : u ∈ g) (hv : v ∈ (A ++ g :: B).flatten)
    (hb : v.branch = u.branch) (hau : v.author = u.author)
    (hl : v.log = u.log) (hcid : v.commitid = u.commitid)
    (ht1 : v.time - u.time ≤ fuzz) (ht2 : u.time - v.time ≤ fuzz) :
    v ∈ g := by
  rw [List.flatten_append, List.flatten_cons] at hv
  rcases List.mem_append.mp hv with hvA | hv2
  · exfalso
    obtain ⟨g2, hg2, hvg2⟩ := List.mem_flatten.mp hvA
    obtain ⟨c2, hc2, hm2⟩ := forall2_mem_right hFA g2 hg2
    have heq : csEq fuzz c2 ck = true :=
      csEq_of_members fuzz hm2 hck hvg2 hu hb hau hl hcid ht1 ht2
    have hsep := (List.pairwise_append.mp hP).2.2 c2 hc2 ck (List.mem_cons_self _ _)
    rw [SepK, heq] at hsep
    cases hsep
  rcases List.mem_append.mp hv2 with hvg | hvB
  · exact hvg
  · exfalso
    obtain ⟨g2, hg2, hvg2⟩ := List.mem_flatten.mp hvB
    obtain ⟨c2, hc2, hm2⟩ := forall2_mem_right hFB g2 hg2
    have heq : csEq fuzz ck c2 = true :=
      csEq_of_members fuzz hck hm2 hu hvg2 hb.symm hau.symm hl.symm hcid.symm ht2 ht1
    have hsep := (List.pairwise_cons.mp (List.pairwise_append.mp hP).2.1).1 c2 hc2
    rw [SepK, heq] at hsep
    cases hsep

theorem count_block (fuzz : Int) (hf : 0 ≤ fuzz)
    {Ak Bk : List CSKey} {ck : CSKey} {A B : List (List ClusterRev)}
    {g : List ClusterRev}
    (hFA : List.Forall₂ (Matches fuzz) Ak A) (hck : Matches fuzz ck g)
    (hFB : List.Forall₂ (Matches fuzz) Bk B)
    (hP : (Ak ++ ck :: Bk).Pairwise (SepK fuzz))
    {v : ClusterRev} (hv : v ∈ g) :
    Multiset.count v (((A ++ g :: B).flatten : List ClusterRev) : Multiset ClusterRev) =
      Multiset.count v ((g : List ClusterRev) : Multiset ClusterRev) := by
  have hnA : v ∉ A.flatten := by
    intro hvA
    obtain ⟨g2, hg2, hvg2⟩ := List.mem_flatten.mp hvA
    obtain ⟨c2, hc2, hm2⟩ := forall2_mem_right hFA g2 hg2
    have heq : csEq fuzz c2 ck = true :=
      csEq_of_members fuzz hm2 hck hvg2 hv rfl rfl rfl rfl (by omega) (by omega)
    have hsep := (List.pairwise_append.mp hP).2.2 c2 hc2 ck (List.mem_cons_self _ _)
    rw [SepK, heq] at hsep
    cases hsep
  have hnB : v ∉ B.flatten := by
    intro hvB
    obtain ⟨g2, hg2, hvg2⟩ := List.mem_flatten.mp hvB
    obtain ⟨c2, hc2, hm2⟩ := forall2_mem_right hFB g2 hg2
    have heq : csEq fuzz ck c2 = true :=
      csEq_of_members fuzz hck hm2 hv hvg2 rfl rfl rfl rfl (by omega) (by omega)
    have hsep := (List.pairwise_cons.mp (List.pairwise_append.mp hP).2.1).1 c2 hc2
    rw [SepK, heq] at hsep
    cases hsep
  rw [List.flatten_append, List.flatten_cons]
  simp only [← Multiset.coe_add, Multiset.count_add]
  rw [Multiset.count_eq_zero_of_not_mem (fun h => hnA (Multiset.mem_coe.mp h)),
    Multiset.count_eq_zero_of_not_mem (fun h => hnB (Multiset.mem_coe.mp h))]
  omega

theorem block_subset (fuzz : Int) (hf : 0 ≤ fuzz)
    {c1 : CSKey} {g1 : List ClusterRev} (hc1 : Matches fuzz c1 g1)
    {Ak Bk : List CSKey} {ck : CSKey} {A B : List (List ClusterRev)}
    {g2 : List ClusterRev}
    (hFA : List.Forall₂ (Matches fuzz) Ak A) (hck : Matches fuzz ck g2)
    (hFB : List.Forall₂ (Matches fuzz) Bk B)
    (hP : (Ak ++ ck :: Bk).Pairwise (SepK fuzz))
    (hsub : ∀ y ∈ g1, y ∈ (A ++ g2 :: B).flatten)
    {x0 : ClusterRev} (hx01 : x0 ∈ g1) (hx02 : x0 ∈ g2) :
    ∀ y ∈ g1, y ∈ g2 := by
  have hfld : ∀ p ∈ g1, ∀ q ∈ g1,
      p.branch = q.branch ∧ p.author = q.author ∧ p.log = q.log ∧
        p.commitid = q.commitid :=
    fun p hp q hq =>
      ⟨(hc1.branch p hp).trans (hc1.branch q hq).symm,
       (hc1.author p hp).trans (hc1.author q hq).symm,
       (hc1.log p hp).trans (hc1.log q hq).symm,
       (hc1.commitid p hp).trans (hc1.commitid q hq).symm⟩
  have hop : ∀ u v : ClusterRev, u ∈ g2 → v ∈ g1 → u ∈ g1 →
      v.time - u.time ≤ fuzz → u.time - v.time ≤ fuzz → v ∈ g2 := by
    intro u v hu2 hv1 hu1 h1 h2
    obtain ⟨hb, hau, hl, hcid⟩ := hfld v hv1 u hu1
    exact mem_block_of_close fuzz hFA hck hFB hP hu2 (hsub v hv1) hb hau hl hcid h1 h2
  have main : ∀ n : Nat, ∀ x y : ClusterRev, x ∈ g1 → y ∈ g1 → x ∈ g2 →
      (x.time - y.time).natAbs ≤ n → y ∈ g2 := by
    intro n
    induction n using Nat.strong_induction_on with
    | _ n ih =>
      intro x y hx1 hy1 hx2 hmeas
      by_cases hclose : x.time - y.time ≤ fuzz ∧ y.time - x.time ≤ fuzz
      · exact hop x y hx2 hy1 hx1 hclose.2 hclose.1
      · by_cases hxy : x.time ≤ y.time
        · have hgap : fuzz < y.time - x.time := by omega
          obtain ⟨x2, hx2g, y2, hy2g, hx2le, hy2lt, hg2⟩ :=
            hc1.nocut x.time ⟨x, hx1, le_refl _⟩ ⟨y, hy1, by omega⟩
          have hx2mem : x2 ∈ g2 := hop x x2 hx2 hx2g hx1 (by omega) (by omega)
          have hy2mem : y2 ∈ g2 := hop x2 y2 hx2mem hy2g hx2g (by omega) (by omega)
          have hy2le : y2.time ≤ y.time := by
            by_contra hcon
            push_neg at hcon
            omega
          exact ih ((y2.time - y.time).natAbs) (by omega) y2 y hy2g hy1 hy2mem (by omega)
        · have hgap : fuzz < x.time - y.time := by omega
          obtain ⟨x2, hx2g, y2, hy2g, hx2le, hy2lt, hg2⟩ :=
            hc1.nocut y.time ⟨y, hy1, le_refl _⟩ ⟨x, hx1, by omega⟩
          by_cases hy2x : y2.time ≤ x.time
          · have hy2mem : y2 ∈ g2 :=
              ih ((x.time - y2.time).natAbs) (by omega) x y2 hx1 hy2g hx2 (by omega)
            exact hop y2 y hy2mem hy1 hy2g (by omega) (by omega)
          · push_neg at hy2x
            have hx2mem : x2 ∈ g2 := hop x x2 hx2 hx2g hx1 (by omega) (by omega)
            exact hop x2 y hx2mem hy1 hx2g (by omega) (by omega)
  intro y hy
  exact main ((x0.time - y.time).natAbs) x0 y hx01 hy hx02 le_rfl

theorem canon_eq_of_blocks (fuzz : Int) {c1 c2 : CSKey} {g1 g2 : List ClusterRev}
    (h1 : Matches fuzz c1 g1) (h2 : Matches fuzz c2 g2)
    (hbl : ((g1 : List ClusterRev) : Multiset ClusterRev) =
      ((g2 : List ClusterRev) : Multiset ClusterRev)) :
    canonCS c1 = canonCS c2 := by
  have hmem : ∀ z : ClusterRev, z ∈ g1 ↔ z ∈ g2 := by
    intro z
    constructor <;> intro hz
    · exact Multiset.mem_coe.mp (hbl ▸ Multiset.mem_coe.mpr hz)
    · exact Multiset.mem_coe.mp (hbl.symm ▸ Multiset.mem_coe.mpr hz)
  obtain ⟨z, hz⟩ := List.exists_mem_of_ne_nil g1 h1.nonempty
  have hz2 : z ∈ g2 := (hmem z).mp hz
  have hb : c1.branch = c2.branch :=
    (h1.branch z hz).symm.trans (h2.branch z hz2)
  have hau : c1.author = c2.author :=
    (h1.author z hz).symm.trans (h2.author z hz2)
  have hl : c1.log = c2.log :=
    (h1.log z hz).symm.trans (h2.log z hz2)
  have hcid : c1.commitid = c2.commitid :=
    (h1.commitid z hz).symm.trans (h2.commitid z hz2)
  have hmin : c1.min_time = c2.min_time := by
    obtain ⟨u, hu, huT⟩ := h1.min_mem
    obtain ⟨v, hv, hvT⟩ := h2.min_mem
    have h1v := h1.min_le v ((hmem v).mpr hv)
    have h2u := h2.min_le u ((hmem u).mp hu)
    omega
  have hmax : c1.max_time = c2.max_time := by
    obtain ⟨u, hu, huT⟩ := h1.max_mem
    obtain ⟨v, hv, hvT⟩ := h2.max_mem
    have h1v := h1.le_max v ((hmem v).mpr hv)
    have h2u := h2.le_max u ((hmem u).mp hu)
    omega
  have hrevs : ((c1.revs : List FileRev) : Multiset FileRev) =
      ((c2.revs : List FileRev) : Multiset FileRev) := by
    rw [h1.revs_eq, h2.revs_eq, ← Multiset.map_coe, ← Multiset.map_coe, hbl]
  unfold canonCS
  rw [hb, hau, hl, hcid, hmin, hmax, hrevs]

theorem rep_unique_aux (fuzz : Int) (hf : 0 ≤ fuzz) :
    ∀ (s1 : List CSKey) (G1 : List (List ClusterRev)) (s2 : List CSKey)
      (G2 : List (List ClusterRev)) (m : Multiset ClusterRev),
      List.Forall₂ (Matches fuzz) s1 G1 → s1.Pairwise (SepK fuzz) →
      List.Forall₂ (Matches fuzz) s2 G2 → s2.Pairwise (SepK fuzz) →
      ((G1.flatten : List ClusterRev) : Multiset ClusterRev) = m →
      ((G2.flatten : List ClusterRev) : Multiset ClusterRev) = m →
      (s1.map canonCS).Perm (s2.map canonCS) := by
  intro s1
  induction s1 with
  | nil =>
    intro G1 s2 G2 m hF1 _ hF2 _ hm1 hm2
    have hG1 : G1 = [] := List.forall₂_nil_left_iff.mp hF1
    subst hG1
    have hm0 : m = 0 := by rw [← hm1]; simp
    subst hm0
    cases s2 with
    | nil => simp
    | cons c2 s2' =>
      exfalso
      cases G2 with
      | nil => cases hF2
      | cons g G2' =>
        cases hF2 with
        | cons hcg htail =>
          obtain ⟨z, hz⟩ := List.exists_mem_of_ne_nil g hcg.nonempty
          have hzm : z ∈ (((g :: G2').flatten : List ClusterRev) : Multiset ClusterRev) :=
            Multiset.mem_coe.mpr (List.mem_flatten.mpr ⟨g, List.mem_cons_self _ _, hz⟩)
          rw [hm2] at hzm
          exact Multiset.not_mem_zero z hzm
  | cons c1 s1' ih =>
    intro G1 s2 G2 m hF1 hP1 hF2 hP2 hm1 hm2
    cases G1 with
    | nil => cases hF1
    | cons g1 G1' =>
    cases hF1 with
    | cons hc1 hF1' =>
    obtain ⟨x0, hx01⟩ := List.exists_mem_of_ne_nil g1 hc1.nonempty
    have hx0m : x0 ∈ m := by
      rw [← hm1]
      exact Multiset.mem_coe.mpr (List.mem_flatten.mpr ⟨g1, List.mem_cons_self _ _, hx01⟩)
    have hx0fl2 : x0 ∈ G2.flatten := by
      rw [← hm2] at hx0m
      exact Multiset.mem_coe.mp hx0m
    obtain ⟨g2, hg2G, hx02⟩ := List.mem_flatten.mp hx0fl2
    obtain ⟨A, B, hG2split⟩ := List.append_of_mem hg2G
    subst hG2split
    obtain ⟨Ak, ck, Bk, rfl, hFA, hck, hFB⟩ := forall2_decomp_right A g2 B s2 hF2
    have hsub12 : ∀ y ∈ g1, y ∈ (A ++ g2 :: B).flatten := by
      intro y hy
      have hym : y ∈ m := by
        rw [← hm1]
        exact Multiset.mem_coe.mpr (List.mem_flatten.mpr ⟨g1, List.mem_cons_self _ _, hy⟩)
      rw [← hm2] at hym
      exact Multiset.mem_coe.mp hym
    have hg12 : ∀ y ∈ g1, y ∈ g2 :=
      block_subset fuzz hf hc1 hFA hck hFB hP2 hsub12 hx01 hx02
    have hP1n : (([] : List CSKey) ++ c1 :: s1').Pairwise (SepK fuzz) := by simpa using hP1
    have hsub21 : ∀ y ∈ g2, y ∈ (([] : List (List ClusterRev)) ++ g1 :: G1').flatten := by
      intro y hy
      have hym : y ∈ m := by
        rw [← hm2]
        exact Multiset.mem_coe.mpr (List.mem_flatten.mpr
          ⟨g2, List.mem_append_right A (List.mem_cons_self _ _), hy⟩)
      rw [← hm1] at hym
      simpa using Multiset.mem_coe.mp hym
    have hg21 : ∀ y ∈ g2, y ∈ g1 :=
      block_subset fuzz hf hck List.Forall₂.nil hc1 hF1' hP1n hsub21 hx02 hx01
    have hbl : ((g1 : List ClusterRev) : Multiset ClusterRev) =
        ((g2 : List ClusterRev) : Multiset ClusterRev) := by
      refine Multiset.ext.mpr ?_
      intro a
      by_cases ha1 : a ∈ g1
      · have ha2 : a ∈ g2 := hg12 a ha1
        have hcnt1 : Multiset.count a m =
            Multiset.count a ((g1 : List ClusterRev) : Multiset ClusterRev) := by
          rw [← hm1]
          simpa using count_block fuzz hf List.Forall₂.nil hc1 hF1' hP1n ha1
        have hcnt2 : Multiset.count a m =
            Multiset.count a ((g2 : List ClusterRev) : Multiset ClusterRev) := by
          rw [← hm2]
          exact count_block fuzz hf hFA hck hFB hP2 ha2
        omega
      · by_cases ha2 : a ∈ g2
        · exact absurd (hg21 a ha2) ha1
        · rw [Multiset.count_eq_zero_of_not_mem (fun h => ha1 (Multiset.mem_coe.mp h)),
            Multiset.count_eq_zero_of_not_mem (fun h => ha2 (Multiset.mem_coe.mp h))]
    have hcanon : canonCS c1 = canonCS ck := canon_eq_of_blocks fuzz hc1 hck hbl
    have hF2r : List.Forall₂ (Matches fuzz) (Ak ++ Bk) (A ++ B) :=
      List.rel_append hFA hFB
    have hP2r : (Ak ++ Bk).Pairwise (SepK fuzz) :=
      hP2.sublist ((List.sublist_cons_self ck Bk).append_left Ak)
    have hP1r : s1'.Pairwise (SepK fuzz) := (List.pairwise_cons.mp hP1).2
    have hm1r : ((G1'.flatten : List ClusterRev) : Multiset ClusterRev) =
        m - ((g1 : List ClusterRev) : Multiset ClusterRev) := by
      rw [← hm1]
      simp only [List.flatten_cons, ← Multiset.coe_add]
      rw [add_tsub_cancel_left]
    have hm2r : (((A ++ B).flatten : List ClusterRev) : Multiset ClusterRev) =
        m - ((g1 : List ClusterRev) : Multiset ClusterRev) := by
      rw [hbl, ← hm2]
      simp only [List.flatten_append, List.flatten_cons, ← Multiset.coe_add]
      have hre : ((A.flatten : List ClusterRev) : Multiset ClusterRev) +
          (((g2 : List ClusterRev) : Multiset ClusterRev) +
            ((B.flatten : List ClusterRev) : Multiset ClusterRev)) =
          ((g2 : List ClusterRev) : Multiset ClusterRev) +
            (((A.flatten : List ClusterRev) : Multiset ClusterRev) +
              ((B.flatten : List ClusterRev) : Multiset ClusterRev)) := by
        abel
      rw [hre, add_tsub_cancel_left]
    have hperm := ih G1' (Ak ++ Bk) (A ++ B)
      (m - ((g1 : List ClusterRev) : Multiset ClusterRev)) hF1' hP1r hF2r hP2r hm1r hm2r
    rw [List.map_cons, hcanon, List.map_append, List.map_cons]
    rw [List.map_append] at hperm
    exact (hperm.cons (canonCS ck)).trans List.perm_middle.symm

/-- Claim C4: clustering is order-independent.  For a nonnegative fuzz
window, feeding the same file revisions to the clusterer in any two orders
produces the same multiset of changesets, each taken in canonical form
(key fields, interval, and the file revisions as a multiset). -/
theorem C4_clustering_order_independent (fuzz : Int) (hf : 0 ≤ fuzz) (l1 l2 : List ClusterRev)
    (hp : l1.Perm l2) :
    canonState (clusterAll fuzz l1) = canonState (clusterAll fuzz l2) := by
  obtain ⟨G1, hF1, hm1, hP1⟩ := rep_clusterAll fuzz l1
  obtain ⟨G2, hF2, hm2, hP2⟩ := rep_clusterAll fuzz l2
  have hmm : (l1 : Multiset ClusterRev) = (l2 : Multiset ClusterRev) :=
    Multiset.coe_eq_coe.mpr hp
  have hperm := rep_unique_aux fuzz hf (clusterAll fuzz l1) G1
    (clusterAll fuzz l2) G2 (l1 : Multiset ClusterRev) hF1 hP1 hF2 hP2
    hm1.symm (hm2.symm.trans hmm.symm)
  unfold canonState
  exact Multiset.coe_eq_coe.mpr hperm

theorem C4_clustering_order_independent_witness :
    canonState (clusterAll 300
      [⟨bs ("HEAD"), bs ("alice"), 100, bs ("msg"), none, bs ("a.txt"), bs ("1.1"), bs ("Exp")⟩,
       ⟨bs ("HEAD"), bs ("alice"), 250, bs ("msg"), none, bs ("b.txt"), bs ("1.4"), bs ("Exp")⟩]) =
    canonState (clusterAll 300
      [⟨bs ("HEAD"), bs ("alice"), 250, bs ("msg"), none, bs ("b.txt"), bs ("1.4"), bs ("Exp")⟩,
       ⟨bs ("HEAD"), bs ("alice"), 100, bs ("msg"), none, bs ("a.txt"), bs ("1.1"), bs ("Exp")⟩]) :=
  C4_clustering_order_independent 300 (by decide) _ _ (by decide)
